import Mathlib

/-!
Verification development for the ProcMon repository (procmon.py,
procmon_utils.py, procmon_cli.py, procmon_models.py).

The Python source is shallowly embedded: strings become `List Char`,
floats (psutil percentages) become `ℚ`, dictionaries become association
lists, exceptions become `Except`/`Option`, and the logging/process-info
side effects become explicit event lists.  Each embedded definition keeps
the name of the source function it models.
-/

/-! ## Characters and digit strings -/

/-- One decimal digit character, as produced by Python's `%d`-style
formatting of `n % 10`. -/
def digitChar (n : Nat) : Char :=
  match n % 10 with
  | 0 => '0' | 1 => '1' | 2 => '2' | 3 => '3' | 4 => '4'
  | 5 => '5' | 6 => '6' | 7 => '7' | 8 => '8' | _ => '9'

/-- Fuel-driven accumulator loop for decimal rendering of a natural
number (the fuel `n + 1` always suffices since `n / 10` shrinks). -/
def natCharsAux : Nat → Nat → List Char → List Char
  | 0, _, acc => acc
  | fuel+1, n, acc =>
    if n < 10 then digitChar n :: acc
    else natCharsAux fuel (n / 10) (digitChar n :: acc)

/-- Decimal rendering of a natural number, as Python's `str(n)` /
`"%d" % n` produce it (no sign, no padding). -/
def natChars (n : Nat) : List Char := natCharsAux (n+1) n []

/-- Two-digit zero-padded rendering (`%02d`), used by `strftime` for
month, day, hour, minute and second fields. -/
def pad2 (n : Nat) : List Char := [digitChar (n / 10), digitChar n]

/-- Four-digit zero-padded rendering (`%04d` / `%Y`). -/
def pad4 (n : Nat) : List Char :=
  [digitChar (n / 1000), digitChar (n / 100), digitChar (n / 10), digitChar n]

/-- Test whether `p` is a prefix of the second list (Python
`s.startswith(p)`, also the elementary step of `re` literal matching). -/
def startsWith : List Char → List Char → Bool
  | [], _ => true
  | _ :: _, [] => false
  | p :: ps, c :: cs => decide (p = c) && startsWith ps cs

/-- Python's substring containment `needle in hay`. -/
def subIn (needle : List Char) : List Char → Bool
  | [] => needle.isEmpty
  | c :: rest => startsWith needle (c :: rest) || subIn needle rest

/-- The record separator `" :: "` used by both ProcMon log formats. -/
def sepChars : List Char := [' ', ':', ':', ' ']

/-- Python's `str.split(sep)` for a non-empty separator: scan left to
right, cut at each non-overlapping occurrence of `sep`. -/
def pySplit (sep : List Char) : List Char → List (List Char)
  | [] => [[]]
  | c :: rest =>
    if sep ≠ [] ∧ startsWith sep (c :: rest) = true then
      [] :: pySplit sep ((c :: rest).drop sep.length)
    else
      match pySplit sep rest with
      | [] => [[c]]
      | chunk :: chunks => (c :: chunk) :: chunks
termination_by l => l.length
decreasing_by
  · rename_i h
    have : sep.length ≥ 1 := by
      cases sep with
      | nil => exact absurd rfl h.1
      | cons a as => simp
    simp [List.length_drop]
    omega
  · simp

/-- Python's `sep.join(parts)`. -/
def joinSep (sep : List Char) : List (List Char) → List Char
  | [] => []
  | [x] => x
  | x :: y :: xs => x ++ sep ++ joinSep sep (y :: xs)

/-- Whitespace characters recognised by Python's `str.strip()` (ASCII
fragment; the embedded log lines only ever contain `' '`). -/
def isPySpace (c : Char) : Bool :=
  decide (c = ' ' ∨ c = '\t' ∨ c = '\n' ∨ c = '\x0d' ∨ c = '\x0b' ∨ c = '\x0c')

/-- Python's `str.strip()`: drop whitespace from both ends. -/
def pyStrip (l : List Char) : List Char :=
  ((l.dropWhile isPySpace).reverse.dropWhile isPySpace).reverse

/-- Character class `[\d.]` from the CLI's percentage regexes. -/
def isDigitDot (c : Char) : Bool := c.isDigit || decide (c = '.')

/-- Fuel-driven scanner behind `pyReplace`; one unit of fuel is spent
per scan position, so fuel equal to the input length always suffices. -/
def pyReplaceAux (pat rep : List Char) : Nat → List Char → List Char
  | _, [] => []
  | 0, l => l
  | fuel+1, c :: rest =>
    if pat ≠ [] ∧ startsWith pat (c :: rest) = true then
      rep ++ pyReplaceAux pat rep fuel ((c :: rest).drop pat.length)
    else
      c :: pyReplaceAux pat rep fuel rest

/-- Python's `str.replace(pat, rep)` for a non-empty pattern: replace
every non-overlapping occurrence, scanning left to right. -/
def pyReplace (pat rep l : List Char) : List Char :=
  pyReplaceAux pat rep l.length l

/-! ## Wall-clock timestamps

`datetime.datetime.now()` is modelled as an explicit date-time record
supplied by the environment; `strftime` for the two fixed format strings
used by the source becomes the two render functions below. -/

structure DateTime where
  year : Nat
  month : Nat
  day : Nat
  hour : Nat
  minute : Nat
  second : Nat
deriving DecidableEq, Repr

/-- Embedding of `strftime("%Y-%m-%d %H:%M:%S")`, the `datefmt` of both
log formatters (second-precision timestamp, 19 characters). -/
def renderTs (t : DateTime) : List Char :=
  pad4 t.year ++ '-' :: pad2 t.month ++ '-' :: pad2 t.day ++
    ' ' :: pad2 t.hour ++ ':' :: pad2 t.minute ++ ':' :: pad2 t.second

/-- Embedding of `get_timestamp_str` (procmon.py line 53, procmon_utils.py
line 26): `strftime("%Y%m%d%H%M")`, 12 digits. -/
def get_timestamp_str (t : DateTime) : List Char :=
  pad4 t.year ++ pad2 t.month ++ pad2 t.day ++ pad2 t.hour ++ pad2 t.minute

/-- Python's `s[:-2]`, used at procmon.py line 261 to turn the 12-digit
timestamp into the 10-digit hour bucket `YYYYMMDDHH`. -/
def dropLast2 (l : List Char) : List Char := l.take (l.length - 2)

/-! ## Process-info capability (psutil)

`psutil.process_iter(['pid','name','cpu_percent','memory_percent'])` is
modelled as a list of entries; an entry either yields its prefetched
`info` dictionary or raises one of `NoSuchProcess`/`AccessDenied`/
`ZombieProcess` when touched (the `raises` constructor).  A field that
psutil reports as `None` is `Option.none`.  The enumeration itself can
fail (`Enumeration.fail`), which is what the outer `except` clauses of
the samplers catch. -/

structure ProcInfo where
  pid : Nat
  name : Option (List Char)
  cpu_percent : Option ℚ
  memory_percent : Option ℚ
deriving DecidableEq, Repr

inductive ProcEntry where
  | ok (info : ProcInfo)
  | raises
deriving DecidableEq, Repr

inductive Enumeration where
  | ok (procs : List ProcEntry)
  | fail
deriving DecidableEq, Repr

/-- Error raised by the samplers (`StatsCollectionError`). -/
structure StatsCollectionError where
deriving DecidableEq, Repr

/-- Python truthiness plus case-insensitive containment test from
`get_process_stats`: `proc.info['name'] and process_name.lower() in
proc.info['name'].lower()` (an absent or empty name is falsy). -/
def nameMatches (process_name : List Char) (name : Option (List Char)) : Bool :=
  match name with
  | none => false
  | some nm =>
    decide (nm ≠ []) && subIn (process_name.map Char.toLower) (nm.map Char.toLower)

/-- Loop body of `get_process_stats` (procmon_utils.py lines 105-113):
accumulate the CPU and memory sums and the matched PID list, skipping
entries that raise, and treating a `None` percentage as `0.0`. -/
def procStatsLoop (process_name : List Char) :
    List ProcEntry → ℚ → ℚ → List Nat → ℚ × ℚ × List Nat
  | [], cpu, mem, pids => (cpu, mem, pids)
  | ProcEntry.raises :: rest, cpu, mem, pids =>
    procStatsLoop process_name rest cpu mem pids
  | ProcEntry.ok info :: rest, cpu, mem, pids =>
    if nameMatches process_name info.name = true then
      procStatsLoop process_name rest
        (cpu + (info.cpu_percent.getD 0))
        (mem + (info.memory_percent.getD 0))
        (pids ++ [info.pid])
    else
      procStatsLoop process_name rest cpu mem pids

/-- Embedding of `get_process_stats` from procmon_utils.py (lines
95-121): returns the aggregated `(total_cpu, total_mem_percent,
pids_found)` triple, raising `StatsCollectionError` only when the
enumeration itself fails. -/
def get_process_stats (process_name : List Char) (e : Enumeration) :
    Except StatsCollectionError (ℚ × ℚ × List Nat) :=
  match e with
  | Enumeration.fail => Except.error ⟨⟩
  | Enumeration.ok procs => Except.ok (procStatsLoop process_name procs 0 0 [])

/-- Loop body of procmon.py's own `get_process_stats` (lines 123-143):
same scan, but only the two sums and a `process_found` flag are kept. -/
def procStatsLoopPy (process_name : List Char) :
    List ProcEntry → ℚ → ℚ → Bool → ℚ × ℚ × Bool
  | [], cpu, mem, found => (cpu, mem, found)
  | ProcEntry.raises :: rest, cpu, mem, found =>
    procStatsLoopPy process_name rest cpu mem found
  | ProcEntry.ok info :: rest, cpu, mem, found =>
    if nameMatches process_name info.name = true then
      procStatsLoopPy process_name rest
        (cpu + (info.cpu_percent.getD 0))
        (mem + (info.memory_percent.getD 0))
        true
    else
      procStatsLoopPy process_name rest cpu mem found

/-- Embedding of `get_process_stats` from procmon.py (lines 118-153): on
an enumeration failure the error is logged and `(None, None)` is
returned (modelled as `none`); otherwise the totals (the not-found case
also returns `(0.0, 0.0)`). -/
def get_process_stats_py (process_name : List Char) (e : Enumeration) :
    Option (ℚ × ℚ) :=
  match e with
  | Enumeration.fail => none
  | Enumeration.ok procs =>
    let r := procStatsLoopPy process_name procs 0 0 false
    if r.2.2 = true then some (r.1, r.2.1) else some (0, 0)

/-- One row of `processes_data` in `get_top_processes`. -/
structure TopEntry where
  pid : Nat
  name : List Char
  cpu : ℚ
  mem : ℚ
deriving DecidableEq, Repr

/-- The ranking metric selector: `p[type]` for `type` in
`{'cpu', 'mem'}`. -/
inductive RankBy where
  | cpu
  | mem
deriving DecidableEq, Repr

def rankKey : RankBy → TopEntry → ℚ
  | RankBy.cpu, p => p.cpu
  | RankBy.mem, p => p.mem

/-- Collection phase of `get_top_processes` (procmon_utils.py lines
139-160): keep an entry exactly when it has a (truthy) name AND a
non-`None` `cpu_percent` AND a non-`None` `memory_percent`; entries that
raise are skipped. -/
def topCollect : List ProcEntry → List TopEntry
  | [] => []
  | ProcEntry.raises :: rest => topCollect rest
  | ProcEntry.ok info :: rest =>
    match info.name, info.cpu_percent, info.memory_percent with
    | some nm, some c, some m =>
      if nm ≠ [] then
        ⟨info.pid, nm, c, m⟩ :: topCollect rest
      else topCollect rest
    | _, _, _ => topCollect rest

/-- Strict decorated order realising Python's stable descending sort
`sorted(data, key=lambda p: p[type], reverse=True)`: larger key first,
ties broken by the original position.  Decorating with the position
makes the order linear, so the sorted permutation is unique and equal to
the output of any stable descending sort. -/
def topRel (key : TopEntry → ℚ) (a b : Nat × TopEntry) : Prop :=
  key b.2 < key a.2 ∨ (key a.2 = key b.2 ∧ a.1 ≤ b.1)

instance (key : TopEntry → ℚ) : DecidableRel (topRel key) := by
  intro a b; unfold topRel; infer_instance

instance (key : TopEntry → ℚ) : IsTotal (Nat × TopEntry) (topRel key) := by
  constructor
  intro a b
  rcases lt_trichotomy (key a.2) (key b.2) with h|h|h
  · right; left; exact h
  · rcases Nat.le_total a.1 b.1 with h2|h2
    · left; right; exact ⟨h, h2⟩
    · right; right; exact ⟨h.symm, h2⟩
  · left; left; exact h

instance (key : TopEntry → ℚ) : IsTrans (Nat × TopEntry) (topRel key) := by
  constructor
  intro a b c hab hbc
  rcases hab with h|⟨h1,h2⟩ <;> rcases hbc with g|⟨g1,g2⟩
  · left; exact lt_trans g h
  · left; rw [g1] at h; exact h
  · left; rw [h1]; exact g
  · right; exact ⟨h1.trans g1, h2.trans g2⟩

/-- Decoration of a list with its positions (indices from `i`). -/
def withIdx : Nat → List TopEntry → List (Nat × TopEntry)
  | _, [] => []
  | i, a :: l => (i, a) :: withIdx (i+1) l

/-- The decorated sorted list of `get_top_processes` before truncation. -/
def topSortedIdx (type : RankBy) (procs : List ProcEntry) :
    List (Nat × TopEntry) :=
  List.insertionSort (topRel (rankKey type)) (withIdx 0 (topCollect procs))

/-- Embedding of `get_top_processes` (procmon_utils.py lines 124-170):
collect, stably sort descending by the chosen metric, truncate to
`num_processes`; `StatsCollectionError` only on enumeration failure. -/
def get_top_processes (num_processes : Nat) (type : RankBy) (e : Enumeration) :
    Except StatsCollectionError (List TopEntry) :=
  match e with
  | Enumeration.fail => Except.error ⟨⟩
  | Enumeration.ok procs =>
    Except.ok (((topSortedIdx type procs).map Prod.snd).take num_processes)

/-- Error raised by `get_core_info` (`CoreInfoError`). -/
structure CoreInfoError where
deriving DecidableEq, Repr

/-- Raw data behind `psutil.cpu_count(logical=False)`,
`psutil.cpu_count(logical=True)` and `psutil.cpu_percent(interval=0.1)`;
`none` models a `None` answer, `fail` models a raised exception or
`NotImplementedError`. -/
inductive CoreQuery where
  | ok (physical logical : Option Nat) (usage : Option ℚ)
  | fail
deriving DecidableEq, Repr

structure CoreInfo where
  physical : Nat
  logical : Nat
  system_usage_percent : ℚ
deriving DecidableEq, Repr

/-- Embedding of `get_core_info` (procmon_utils.py lines 173-208):
raises `CoreInfoError` when the query fails or any of the three values
is `None`. -/
def get_core_info (q : CoreQuery) : Except CoreInfoError CoreInfo :=
  match q with
  | CoreQuery.fail => Except.error ⟨⟩
  | CoreQuery.ok physical logical usage =>
    match physical, logical, usage with
    | some p, some l, some u => Except.ok ⟨p, l, u⟩
    | _, _, _ => Except.error ⟨⟩

/-! ## Log record formatting

`logging.Formatter(log_format, datefmt='%Y-%m-%d %H:%M:%S')` is embedded
as a `%(key)s`-interpolation engine over the format string, applied to a
record carrying the four `%`-fields the two ProcMon formats use. -/

structure LogRecord where
  asctime : List Char
  levelname : List Char
  pids : List Char
  message : List Char

def asctimeKey : List Char := "asctime".toList
def levelnameKey : List Char := "levelname".toList
def pidsKey : List Char := "pids".toList
def messageKey : List Char := "message".toList

/-- Attribute lookup `record.<key>` during `%`-interpolation. -/
def lookupField (r : LogRecord) (key : List Char) : List Char :=
  if key = asctimeKey then r.asctime
  else if key = levelnameKey then r.levelname
  else if key = pidsKey then r.pids
  else if key = messageKey then r.message
  else []

/-- Fuel-driven scanner behind `pyFormat`; one unit of fuel per scan
position, so fuel equal to the format length always suffices. -/
def pyFormatAux (r : LogRecord) : Nat → List Char → List Char
  | _, [] => []
  | 0, l => l
  | fuel+1, c :: rest =>
    if c = '%' ∧ rest.head? = some '(' then
      let key := rest.tail.takeWhile (fun x => decide (x ≠ ')'))
      let after := rest.tail.drop (key.length + 1)
      if after.head? = some 's' then
        lookupField r key ++ pyFormatAux r fuel after.tail
      else c :: pyFormatAux r fuel rest
    else c :: pyFormatAux r fuel rest

/-- Python `%`-style interpolation restricted to `%(key)s` conversions,
which is all the two ProcMon format strings contain: literal characters
are copied, each `%(key)s` is replaced by the record field. -/
def pyFormat (r : LogRecord) (fmt : List Char) : List Char :=
  pyFormatAux r fmt.length fmt

/-- The format string of procmon_utils.py `setup_logger` (line 61): the
four-field wire format with the PIDs column. -/
def log_format_utils : List Char :=
  "%(asctime)s :: %(levelname)s :: PIDs[%(pids)s] :: %(message)s".toList

/-- The format string of procmon.py `setup_logger` (line 85): the legacy
three-field format without a PIDs column. -/
def log_format_py : List Char :=
  "%(asctime)s :: %(levelname)s :: %(message)s".toList

/-- Logging levels used by the source. -/
inductive Level where
  | info
  | warning
  | error
  | critical
deriving DecidableEq, Repr

def renderLevel : Level → List Char
  | Level.info => "INFO".toList
  | Level.warning => "WARNING".toList
  | Level.error => "ERROR".toList
  | Level.critical => "CRITICAL".toList

def naChars : List Char := "N/A".toList

/-- Comma-joined PID list as carried in the `pids` record attribute.
Modelled from the spec: the monitoring loop that passes the PID list to
the logger (`extra={'pids': ...}`) is not under src/; the spec fixes the
field as the comma-joined PID list.  A call that supplies no `pids`
attribute gets the `'N/A'` default from `PidFilter`
(procmon_models.py lines 15-24), which is under src/. -/
def pidsField (pids : Option (List Nat)) : List Char :=
  match pids with
  | none => naChars
  | some ps => joinSep [','] (ps.map natChars)

/-- One record line as emitted through a procmon_utils sink: the record
(with `PidFilter` applied) interpolated into `log_format_utils`. -/
def emitLine (t : DateTime) (lvl : Level) (pids : Option (List Nat))
    (msg : List Char) : List Char :=
  pyFormat ⟨renderTs t, renderLevel lvl, pidsField pids, msg⟩ log_format_utils

/-- One record line as emitted through a procmon.py (legacy) sink. -/
def emitLinePy (t : DateTime) (lvl : Level) (msg : List Char) : List Char :=
  pyFormat ⟨renderTs t, renderLevel lvl, naChars, msg⟩ log_format_py

/-! ## The log-summary parser (procmon_cli.py)

`parse_log_line` (procmon_cli.py lines 77-91) splits on `' :: '` and
applies three `re.search` calls.  Each regex is embedded as a dedicated
scanner with the same leftmost-match semantics:

* `PIDs\[(.*)\]`: at the leftmost occurrence of the literal `PIDs[`, the
  greedy group stretches to the last `]` of the remainder (if the
  remainder has no `]`, the scan resumes at the next position);
* `Uso CPU:\s*([\d.]+)\%` and `Uso Memória:\s*([\d.]+)\%`: after the
  literal, maximal whitespace, then a maximal `[\d.]+` run followed by
  `%`.  Checking only the maximal run is exact because `%` is neither a
  digit, a dot, nor whitespace, so regex backtracking inside `\s*` or
  `[\d.]+` can never produce a different match. -/

def pidsLit : List Char := "PIDs[".toList
def cpuLit : List Char := "Uso CPU:".toList
def memLit : List Char := "Uso Memória:".toList

/-- Group of the greedy `(.*)` up to the last `]` of the list, when a
`]` is present. -/
def upToLastRB (l : List Char) : Option (List Char) :=
  match l.reverse.dropWhile (fun c => decide (c ≠ ']')) with
  | [] => none
  | _ :: rest => some rest.reverse

/-- Scanner for `re.search(r'PIDs\[(.*)\]', s)`. -/
def pidsSearch : List Char → Option (List Char)
  | [] => none
  | c :: rest =>
    if startsWith pidsLit (c :: rest) = true then
      match upToLastRB ((c :: rest).drop pidsLit.length) with
      | some g => some g
      | none => pidsSearch rest
    else pidsSearch rest

/-- Scanner for `re.search(lit ++ r'\s*([\d.]+)\%', s)` with a literal
head, as used for the two percentage groups. -/
def pctSearch (lit : List Char) : List Char → Option (List Char)
  | [] => none
  | c :: rest =>
    if startsWith lit (c :: rest) = true then
      let afterWs := ((c :: rest).drop lit.length).dropWhile isPySpace
      let run := afterWs.takeWhile isDigitDot
      if run ≠ [] ∧ (afterWs.drop run.length).head? = some '%' then
        some run
      else pctSearch lit rest
    else pctSearch lit rest

/-- Embedding of `parse_log_line` (procmon_cli.py lines 77-91): `none`
models the `(None, None, None, None)` return for a line that does not
split into exactly four `' :: '` fields. -/
def parse_log_line (line : List Char) :
    Option (List Char × List Char × List Char × List Char) :=
  match pySplit sepChars line with
  | [p0, _, p2, p3] =>
    let pids_str := (pidsSearch p2).getD naChars
    let message := pyStrip p3
    let cpu := (pctSearch cpuLit message).getD naChars
    let mem := (pctSearch memLit message).getD naChars
    some (p0, pids_str, cpu, mem)
  | _ => none

/-- Message written by the monitoring loop for the global and per-process
usage records (procmon.py lines 283 and 296): percentages with one
decimal place.  A percentage is carried as a number of tenths. -/
def pctChars (tenths : Nat) : List Char :=
  natChars (tenths / 10) ++ '.' :: [digitChar tenths]

def usageMsg (cpuTenths memTenths : Nat) : List Char :=
  "Uso CPU: ".toList ++ pctChars cpuTenths ++ "% | Uso Memória: ".toList ++
    pctChars memTenths ++ ['%']

/-! ## Character and digit-string lemmas -/

theorem digitChar_mem (n : Nat) :
    digitChar n ∈ (['0','1','2','3','4','5','6','7','8','9'] : List Char) := by
  unfold digitChar
  have h : n % 10 < 10 := Nat.mod_lt _ (by decide)
  interval_cases h : n % 10 <;> decide

theorem digitChar_isDigit (n : Nat) : (digitChar n).isDigit = true := by
  have h := digitChar_mem n
  simp only [List.mem_cons, List.not_mem_nil, or_false] at h
  rcases h with h|h|h|h|h|h|h|h|h|h <;> rw [h] <;> decide

theorem digitChar_ne_colon (n : Nat) : digitChar n ≠ ':' := by
  have h := digitChar_mem n
  simp only [List.mem_cons, List.not_mem_nil, or_false] at h
  rcases h with h|h|h|h|h|h|h|h|h|h <;> rw [h] <;> decide

theorem digitChar_ne_upperU (n : Nat) : digitChar n ≠ 'U' := by
  have h := digitChar_mem n
  simp only [List.mem_cons, List.not_mem_nil, or_false] at h
  rcases h with h|h|h|h|h|h|h|h|h|h <;> rw [h] <;> decide

theorem isDigit_ne_colon {c : Char} (h : c.isDigit = true) : c ≠ ':' := by
  intro hc; rw [hc] at h; exact absurd h (by decide)

theorem isDigit_ne_upperU {c : Char} (h : c.isDigit = true) : c ≠ 'U' := by
  intro hc; rw [hc] at h; exact absurd h (by decide)

theorem isDigit_isDigitDot {c : Char} (h : c.isDigit = true) :
    isDigitDot c = true := by
  simp [isDigitDot, h]

theorem isDigit_not_space {c : Char} (h : c.isDigit = true) :
    isPySpace c = false := by
  revert h
  unfold Char.isDigit isPySpace
  intro h
  simp only [decide_eq_false_iff_not]
  intro hc
  rcases hc with hc|hc|hc|hc|hc|hc <;> rw [hc] at h <;> exact absurd h (by decide)

theorem natCharsAux_all (p : Char → Prop) (hd : ∀ m, p (digitChar m)) :
    ∀ fuel n acc, (∀ c ∈ acc, p c) → ∀ c ∈ natCharsAux fuel n acc, p c := by
  intro fuel
  induction fuel with
  | zero => intro n acc hacc; exact hacc
  | succ f ih =>
    intro n acc hacc c hc
    unfold natCharsAux at hc
    split at hc
    · rcases List.mem_cons.mp hc with rfl|h
      · exact hd n
      · exact hacc _ h
    · exact ih _ _ (by
        intro d hdm
        rcases List.mem_cons.mp hdm with rfl|h
        · exact hd _
        · exact hacc _ h) c hc

theorem natChars_all_digit (n : Nat) : ∀ c ∈ natChars n, c.isDigit = true :=
  natCharsAux_all _ (fun m => digitChar_isDigit m) _ _ _ (by simp)

theorem natCharsAux_ne_nil :
    ∀ fuel n acc, acc ≠ [] ∨ 0 < fuel → natCharsAux fuel n acc ≠ [] := by
  intro fuel
  induction fuel with
  | zero =>
    intro n acc h
    rcases h with h|h
    · exact h
    · exact absurd h (by omega)
  | succ f ih =>
    intro n acc _
    unfold natCharsAux
    split
    · simp
    · exact ih _ _ (Or.inl (by simp))

theorem natChars_ne_nil (n : Nat) : natChars n ≠ [] :=
  natCharsAux_ne_nil _ _ _ (Or.inr (by omega))

theorem pctChars_all_digitDot (t : Nat) :
    ∀ c ∈ pctChars t, c.isDigit = true ∨ c = '.' := by
  intro c hc
  unfold pctChars at hc
  rcases List.mem_append.mp hc with h|h
  · exact Or.inl (natChars_all_digit _ _ h)
  · rcases List.mem_cons.mp h with rfl|h
    · exact Or.inr rfl
    · rcases List.mem_cons.mp h with rfl|h
      · exact Or.inl (digitChar_isDigit _)
      · exact absurd h (List.not_mem_nil c)

theorem pctChars_ne_nil (t : Nat) : pctChars t ≠ [] := by
  unfold pctChars
  intro h
  exact natChars_ne_nil _ (List.append_eq_nil.mp h).1

/-! ## Lemmas about `' :: '`-splitting

`noAdjCC l` says `l` has no two adjacent colons.  Because the separator
`' :: '` begins and ends with a space, the only way an occurrence of the
separator can start strictly inside a field `a` of `a ++ " :: " ++ t` is
through an adjacent colon pair inside `a`; `noAdjCC` on every field is
therefore exactly what makes the four-field split unambiguous. -/

def noAdjCC : List Char → Bool
  | c1 :: c2 :: rest => if c1 = ':' ∧ c2 = ':' then false else noAdjCC (c2 :: rest)
  | _ => true

theorem noAdjCC_tail {c : Char} {l : List Char} (h : noAdjCC (c :: l) = true) :
    noAdjCC l = true := by
  cases l with
  | nil => rfl
  | cons d rest =>
    unfold noAdjCC at h
    split at h
    · exact absurd h (by simp)
    · exact h

theorem startsWith_append (p rest : List Char) : startsWith p (p ++ rest) = true := by
  induction p with
  | nil => rfl
  | cons c cs ih => simp [startsWith, ih]

theorem sep_not_prefix {c : Char} {a' : List Char} (t : List Char)
    (h : noAdjCC (c :: a') = true) :
    startsWith sepChars (c :: (a' ++ (sepChars ++ t))) = false := by
  match a' with
  | [] =>
    by_cases hc : (' ' : Char) = c <;> simp [sepChars, startsWith, hc]
  | [d] =>
    by_cases hc : (' ' : Char) = c <;> by_cases hd : (':' : Char) = d <;>
      simp [sepChars, startsWith, hc, hd]
  | d1 :: d2 :: rest =>
    have hpair : ¬ (d1 = ':' ∧ d2 = ':') := by
      have h2 := noAdjCC_tail h
      unfold noAdjCC at h2
      split at h2
      · exact absurd h2 (by simp)
      · rename_i hcond; exact hcond
    by_cases hc : (' ' : Char) = c <;> by_cases h1 : (':' : Char) = d1 <;>
      by_cases h2 : (':' : Char) = d2 <;>
      simp [sepChars, startsWith, hc, h1, h2] <;>
      exact absurd ⟨h1.symm, h2.symm⟩ hpair

theorem sep_not_prefix_short {c : Char} {a' : List Char}
    (h : noAdjCC (c :: a') = true) :
    startsWith sepChars (c :: a') = false := by
  match a' with
  | [] =>
    by_cases hc : (' ' : Char) = c <;> simp [sepChars, startsWith, hc]
  | [d] =>
    by_cases hc : (' ' : Char) = c <;> by_cases hd : (':' : Char) = d <;>
      simp [sepChars, startsWith, hc, hd]
  | d1 :: d2 :: rest =>
    have hpair : ¬ (d1 = ':' ∧ d2 = ':') := by
      have h2 := noAdjCC_tail h
      unfold noAdjCC at h2
      split at h2
      · exact absurd h2 (by simp)
      · rename_i hcond; exact hcond
    by_cases hc : (' ' : Char) = c <;> by_cases h1 : (':' : Char) = d1 <;>
      by_cases h2 : (':' : Char) = d2 <;>
      simp [sepChars, startsWith, hc, h1, h2] <;>
      exact absurd ⟨h1.symm, h2.symm⟩ hpair

theorem pySplit_sep_append (a t : List Char) (h : noAdjCC a = true) :
    pySplit sepChars (a ++ (sepChars ++ t)) = a :: pySplit sepChars t := by
  induction a with
  | nil =>
    show pySplit sepChars (sepChars ++ t) = [] :: pySplit sepChars t
    have hform : sepChars ++ t = ' ' :: (':' :: ':' :: ' ' :: t) := by simp [sepChars]
    rw [hform, pySplit]
    rw [if_pos ⟨by simp [sepChars], by
      have := startsWith_append sepChars t
      rw [hform] at this; exact this⟩]
    simp [sepChars]
  | cons c a' ih =>
    have hsw := sep_not_prefix t h
    rw [List.cons_append, pySplit]
    rw [if_neg (by simp [List.cons_append] at hsw ⊢; intro _; simp [hsw])]
    rw [ih (noAdjCC_tail h)]

theorem pySplit_no_sep (a : List Char) (h : noAdjCC a = true) :
    pySplit sepChars a = [a] := by
  induction a with
  | nil => rw [pySplit]
  | cons c a' ih =>
    rw [pySplit]
    rw [if_neg ?hneg]
    case hneg =>
      intro hcond
      have hsw := sep_not_prefix_short h
      rw [hcond.2] at hsw
      exact Bool.true_eq_false.mp hsw
    rw [ih (noAdjCC_tail h)]

/-- Stepping over a non-colon character preserves `noAdjCC`. -/
theorem ncc_cons {c : Char} (h : c ≠ ':') (rest : List Char) :
    noAdjCC (c :: rest) = noAdjCC rest := by
  cases rest with
  | nil => rfl
  | cons d r =>
    conv_lhs => rw [noAdjCC]
    rw [if_neg (fun hp => h hp.1)]

/-- Stepping over a colon followed by a non-colon preserves `noAdjCC`. -/
theorem ncc_colon {c : Char} (h : c ≠ ':') (rest : List Char) :
    noAdjCC (':' :: c :: rest) = noAdjCC (c :: rest) := by
  conv_lhs => rw [noAdjCC]
  rw [if_neg (fun hp => h hp.2)]

/-- A colon-free block can be stepped over whole. -/
theorem ncc_app_noColon {a : List Char} (h : ∀ c ∈ a, c ≠ ':') (rest : List Char) :
    noAdjCC (a ++ rest) = noAdjCC rest := by
  induction a with
  | nil => rfl
  | cons c a' ih =>
    rw [List.cons_append, ncc_cons (h c (List.mem_cons_self c a')), ih]
    intro d hd
    exact h d (List.mem_cons_of_mem _ hd)

theorem noColon_noAdjCC {a : List Char} (h : ∀ c ∈ a, c ≠ ':') :
    noAdjCC a = true := by
  have := ncc_app_noColon h []
  rw [List.append_nil] at this
  rw [this]
  rfl

/-! ## Interpolation lemmas for the logging formatter -/

theorem takeWhile_app_stop {p : Char → Bool} {a : List Char} {d : Char}
    (t : List Char) (ha : ∀ c ∈ a, p c = true) (hd : p d = false) :
    (a ++ d :: t).takeWhile p = a := by
  induction a with
  | nil => simp [List.takeWhile, hd]
  | cons c a' ih =>
    rw [List.cons_append, List.takeWhile_cons,
      ha c (List.mem_cons_self c a')]
    rw [ih (fun c hc => ha c (List.mem_cons_of_mem _ hc))]
    simp

theorem drop_app_len1 (a : List Char) (d : Char) (t : List Char) :
    (a ++ d :: t).drop (a.length + 1) = t := by
  induction a with
  | nil => simp
  | cons c a' ih => simpa using ih

theorem pyFormatAux_irrel (r : LogRecord) :
    ∀ f1 f2 l, l.length ≤ f1 → l.length ≤ f2 →
      pyFormatAux r f1 l = pyFormatAux r f2 l := by
  intro f1
  induction f1 with
  | zero =>
    intro f2 l h1 _
    have hl : l = [] := List.eq_nil_of_length_eq_zero (by omega)
    subst hl
    cases f2 <;> rfl
  | succ f ih =>
    intro f2 l h1 h2
    cases l with
    | nil => cases f2 <;> rfl
    | cons c rest =>
      cases f2 with
      | zero => simp at h2
      | succ g =>
        simp only [pyFormatAux]
        have hr : rest.length ≤ f := by simp at h1; omega
        have hg : rest.length ≤ g := by simp at h2; omega
        have htl :
            (rest.tail.drop
              ((rest.tail.takeWhile (fun x => decide (x ≠ ')'))).length + 1)).tail.length ≤
              rest.length := by
          simp only [List.length_tail, List.length_drop]
          omega
        split_ifs
        · rw [ih _ _ (le_trans htl hr) (le_trans htl hg)]
        · rw [ih _ _ hr hg]
        · rw [ih _ _ hr hg]

theorem pyFormatAux_lit (r : LogRecord) (lit : List Char)
    (h : ∀ c ∈ lit, c ≠ '%') :
    ∀ fuel rest, (lit ++ rest).length ≤ fuel →
      pyFormatAux r fuel (lit ++ rest) = lit ++ pyFormatAux r rest.length rest := by
  induction lit with
  | nil =>
    intro fuel rest hlen
    simp only [List.nil_append] at hlen ⊢
    exact pyFormatAux_irrel r _ _ _ hlen (le_refl _)
  | cons c lit' ih =>
    intro fuel rest hlen
    cases fuel with
    | zero => simp at hlen
    | succ f =>
      rw [List.cons_append]
      simp only [pyFormatAux]
      rw [if_neg (fun hp => h c (List.mem_cons_self c lit') hp.1)]
      rw [ih (fun d hd => h d (List.mem_cons_of_mem _ hd)) f rest (by simp at hlen ⊢; omega)]
      simp

theorem pyFormatAux_key (r : LogRecord) (key : List Char)
    (hk : ∀ c ∈ key, c ≠ ')') :
    ∀ fuel rest, ('%' :: '(' :: (key ++ ')' :: 's' :: rest)).length ≤ fuel →
      pyFormatAux r fuel ('%' :: '(' :: (key ++ ')' :: 's' :: rest)) =
        lookupField r key ++ pyFormatAux r rest.length rest := by
  intro fuel rest hlen
  cases fuel with
  | zero => simp at hlen
  | succ f =>
    simp only [pyFormatAux]
    rw [if_pos ⟨by trivial, by trivial⟩]
    have hkey : (('(' :: (key ++ ')' :: 's' :: rest)).tail.takeWhile
        (fun x => decide (x ≠ ')'))) = key := by
      show ((key ++ ')' :: 's' :: rest).takeWhile (fun x => decide (x ≠ ')'))) = key
      exact takeWhile_app_stop _ (fun c hc => by simp [hk c hc]) (by simp)
    rw [hkey]
    have hdrop : (('(' :: (key ++ ')' :: 's' :: rest)).tail.drop (key.length + 1)) =
        's' :: rest := by
      show ((key ++ ')' :: 's' :: rest).drop (key.length + 1)) = 's' :: rest
      exact drop_app_len1 _ _ _
    rw [hdrop]
    rw [if_pos (by trivial)]
    show lookupField r key ++ pyFormatAux r f rest = _
    rw [pyFormatAux_irrel r f rest.length rest (by simp at hlen; omega) (le_refl _)]

/-- Decomposition of the procmon_utils format string into literal and
`%(key)s` segments. -/
theorem log_format_utils_decomp :
    log_format_utils =
      '%' :: '(' :: (asctimeKey ++ ')' :: 's' ::
        (" :: ".toList ++ ('%' :: '(' :: (levelnameKey ++ ')' :: 's' ::
          (" :: PIDs[".toList ++ ('%' :: '(' :: (pidsKey ++ ')' :: 's' ::
            ("] :: ".toList ++ ('%' :: '(' :: (messageKey ++ ')' :: 's' ::
              ([] : List Char))))))))))) := by
  decide

/-- Decomposition of the legacy procmon.py format string. -/
theorem log_format_py_decomp :
    log_format_py =
      '%' :: '(' :: (asctimeKey ++ ')' :: 's' ::
        (" :: ".toList ++ ('%' :: '(' :: (levelnameKey ++ ')' :: 's' ::
          (" :: ".toList ++ ('%' :: '(' :: (messageKey ++ ')' :: 's' ::
            ([] : List Char)))))))) := by
  decide

theorem emitLine_eq (t : DateTime) (lvl : Level) (pids : Option (List Nat))
    (msg : List Char) :
    emitLine t lvl pids msg =
      renderTs t ++ " :: ".toList ++ renderLevel lvl ++ " :: PIDs[".toList ++
        pidsField pids ++ "] :: ".toList ++ msg := by
  unfold emitLine pyFormat
  rw [log_format_utils_decomp]
  rw [pyFormatAux_key _ _ (by decide) _ _ (le_refl _)]
  rw [pyFormatAux_lit _ _ (by decide) _ _ (le_refl _)]
  rw [pyFormatAux_key _ _ (by decide) _ _ (le_refl _)]
  rw [pyFormatAux_lit _ _ (by decide) _ _ (le_refl _)]
  rw [pyFormatAux_key _ _ (by decide) _ _ (le_refl _)]
  rw [pyFormatAux_lit _ _ (by decide) _ _ (le_refl _)]
  rw [pyFormatAux_key _ _ (by decide) _ _ (le_refl _)]
  simp +decide [lookupField, asctimeKey, levelnameKey, pidsKey, messageKey]
  rfl

theorem emitLinePy_eq (t : DateTime) (lvl : Level) (msg : List Char) :
    emitLinePy t lvl msg =
      renderTs t ++ " :: ".toList ++ renderLevel lvl ++ " :: ".toList ++ msg := by
  unfold emitLinePy pyFormat
  rw [log_format_py_decomp]
  rw [pyFormatAux_key _ _ (by decide) _ _ (le_refl _)]
  rw [pyFormatAux_lit _ _ (by decide) _ _ (le_refl _)]
  rw [pyFormatAux_key _ _ (by decide) _ _ (le_refl _)]
  rw [pyFormatAux_lit _ _ (by decide) _ _ (le_refl _)]
  rw [pyFormatAux_key _ _ (by decide) _ _ (le_refl _)]
  simp +decide [lookupField, asctimeKey, levelnameKey, pidsKey, messageKey]
  rfl

/-- Claim C1, counterexample to the claim as stated: a record written
through a procmon.py (legacy) sink — whose formatter at line 85 has no
PIDs column — is not of the claimed fixed form.  At the concrete write
(INFO, no pids supplied, message `"x"`) the emitted line differs from
the claimed `'... :: INFO :: PIDs[N/A] :: x'` line and does not even
contain the substring `'PIDs['`. -/
theorem claim_C1_counterexample :
    emitLinePy ⟨2025,5,4,10,0,0⟩ Level.info "x".toList ≠
      "2025-05-04 10:00:00 :: INFO :: PIDs[N/A] :: x".toList ∧
    emitLinePy ⟨2025,5,4,10,0,0⟩ Level.info "x".toList =
      "2025-05-04 10:00:00 :: INFO :: x".toList ∧
    subIn "PIDs[".toList (emitLinePy ⟨2025,5,4,10,0,0⟩ Level.info "x".toList) =
      false := by
  refine ⟨by decide, by decide, by decide⟩

/-- Claim C1 (amended): every record written through a procmon_utils
sink is exactly one line of the fixed form `timestamp :: LEVEL ::
PIDs[csv or N/A] :: message` (with the second-precision timestamp and
the comma-joined PID list, `N/A` when no pids were supplied), while a
record written through the legacy procmon.py sink has the three-field
form `timestamp :: LEVEL :: message` with no PIDs column. -/
theorem claim_C1_amended (t : DateTime) (lvl : Level) (pids : Option (List Nat))
    (msg : List Char) :
    emitLine t lvl pids msg =
      renderTs t ++ " :: ".toList ++ renderLevel lvl ++ " :: PIDs[".toList ++
        pidsField pids ++ "] :: ".toList ++ msg ∧
    emitLinePy t lvl msg =
      renderTs t ++ " :: ".toList ++ renderLevel lvl ++ " :: ".toList ++ msg :=
  ⟨emitLine_eq t lvl pids msg, emitLinePy_eq t lvl msg⟩

/-! ## Field facts needed for the round-trip (claim C2) -/

theorem noAdjCC_nil : noAdjCC [] = true := rfl

theorem noAdjCC_renderTs (t : DateTime) : noAdjCC (renderTs t) = true := by
  simp +decide only [renderTs, pad4, pad2, List.cons_append, List.nil_append,
    ncc_cons (digitChar_ne_colon _), ncc_cons (by decide : ('-' : Char) ≠ ':'),
    ncc_cons (by decide : (' ' : Char) ≠ ':'), ncc_colon (digitChar_ne_colon _)]

theorem noAdjCC_renderLevel (lvl : Level) : noAdjCC (renderLevel lvl) = true := by
  cases lvl <;> decide

theorem pidsField_noColon (pids : Option (List Nat)) :
    ∀ c ∈ pidsField pids, c ≠ ':' := by
  cases pids with
  | none =>
    intro c hc
    have : ∀ c ∈ naChars, c ≠ ':' := by decide
    exact this c hc
  | some ps =>
    show ∀ c ∈ joinSep [','] (ps.map natChars), c ≠ ':'
    induction ps with
    | nil => intro c hc; exact absurd hc (List.not_mem_nil c)
    | cons n ps' ih =>
      cases ps' with
      | nil =>
        intro c hc
        exact isDigit_ne_colon (natChars_all_digit n c hc)
      | cons m ps'' =>
        intro c hc
        show c ≠ ':'
        simp only [List.map_cons, joinSep] at hc
        rcases List.mem_append.mp hc with h|h
        · rcases List.mem_append.mp h with h|h
          · exact isDigit_ne_colon (natChars_all_digit n c h)
          · rcases List.mem_cons.mp h with rfl|h
            · decide
            · exact absurd h (List.not_mem_nil c)
        · exact ih c h

theorem noAdjCC_pidsPart (pids : Option (List Nat)) :
    noAdjCC ("PIDs[".toList ++ (pidsField pids ++ [']'])) = true := by
  apply noColon_noAdjCC
  intro c hc
  rcases List.mem_append.mp hc with h|h
  · revert h
    have : ∀ c ∈ "PIDs[".toList, c ≠ ':' := by decide
    exact this c
  · rcases List.mem_append.mp h with h|h
    · exact pidsField_noColon pids c h
    · rcases List.mem_cons.mp h with rfl|h
      · decide
      · exact absurd h (List.not_mem_nil c)

theorem pctChars_noColon (t : Nat) : ∀ c ∈ pctChars t, c ≠ ':' := by
  intro c hc
  rcases pctChars_all_digitDot t c hc with h|h
  · exact isDigit_ne_colon h
  · rw [h]; decide

theorem pctChars_ne_upperU (t : Nat) : ∀ c ∈ pctChars t, c ≠ 'U' := by
  intro c hc
  rcases pctChars_all_digitDot t c hc with h|h
  · exact isDigit_ne_upperU h
  · rw [h]; decide

theorem noAdjCC_usageMsg (x y : Nat) : noAdjCC (usageMsg x y) = true := by
  have hmsg : usageMsg x y =
      "Uso CPU".toList ++ (':' :: ' ' :: (pctChars x ++
        ("% | Uso Memória".toList ++ (':' :: ' ' :: (pctChars y ++ ['%']))))) := by
    simp only [usageMsg, List.append_assoc]
    rfl
  rw [hmsg]
  rw [ncc_app_noColon (by decide)]
  rw [ncc_colon (by decide)]
  rw [ncc_cons (by decide)]
  rw [ncc_app_noColon (pctChars_noColon x)]
  rw [ncc_app_noColon (by decide)]
  rw [ncc_colon (by decide)]
  rw [ncc_cons (by decide)]
  rw [ncc_app_noColon (pctChars_noColon y)]
  decide

/-! ## Scanner lemmas for `parse_log_line` -/

theorem isDigitDot_not_space {c : Char} (h : isDigitDot c = true) :
    isPySpace c = false := by
  rcases Bool.or_eq_true_iff.mp h with h|h
  · exact isDigit_not_space h
  · rw [of_decide_eq_true h]; decide

theorem pidsSearch_eval (p : List Char) :
    pidsSearch ("PIDs[".toList ++ (p ++ [']'])) = some p := by
  show pidsSearch ('P' :: ("IDs[".toList ++ (p ++ [']']))) = some p
  rw [pidsSearch]
  rw [if_pos (by
    have := startsWith_append pidsLit (p ++ [']'])
    exact this)]
  have hdrop : (('P' :: ("IDs[".toList ++ (p ++ [']']))).drop pidsLit.length) =
      p ++ [']'] := by
    have := List.drop_left pidsLit (p ++ [']'])
    exact this
  rw [hdrop]
  have hlast : upToLastRB (p ++ [']']) = some p := by
    unfold upToLastRB
    have hrev : (p ++ [']']).reverse = ']' :: p.reverse := by simp
    rw [hrev, List.dropWhile_cons, if_neg (by decide)]
    simp
  rw [hlast]

theorem pctSearch_skip_char {lit : List Char} {c : Char} {rest : List Char}
    (h : startsWith lit (c :: rest) = false) :
    pctSearch lit (c :: rest) = pctSearch lit rest := by
  rw [pctSearch]
  rw [if_neg (by rw [h]; simp)]

theorem pctSearch_skip_block {lit : List Char} {u : Char} {lr : List Char}
    (hl : lit = u :: lr) (a t : List Char) (ha : ∀ c ∈ a, c ≠ u) :
    pctSearch lit (a ++ t) = pctSearch lit t := by
  induction a with
  | nil => rfl
  | cons c a' ih =>
    rw [List.cons_append]
    rw [pctSearch_skip_char (by
      rw [hl]
      show (decide (u = c) && startsWith lr (a' ++ t)) = false
      rw [decide_eq_false (fun hu => ha c (List.mem_cons_self c a') hu.symm)]
      simp)]
    exact ih (fun d hd => ha d (List.mem_cons_of_mem _ hd))

theorem pctSearch_found {lit : List Char} (pct tail : List Char)
    (hlit : lit ≠ []) (hpct : ∀ c ∈ pct, isDigitDot c = true) (hne : pct ≠ []) :
    pctSearch lit (lit ++ (' ' :: (pct ++ '%' :: tail))) = some pct := by
  match lit, hlit with
  | l0 :: lr, _ =>
    show pctSearch (l0 :: lr) (l0 :: (lr ++ (' ' :: (pct ++ '%' :: tail)))) = some pct
    rw [pctSearch]
    rw [if_pos (by
      have := startsWith_append (l0 :: lr) (' ' :: (pct ++ '%' :: tail))
      rw [List.cons_append] at this
      exact this)]
    have hdrop : ((l0 :: (lr ++ (' ' :: (pct ++ '%' :: tail)))).drop
        (l0 :: lr).length) = ' ' :: (pct ++ '%' :: tail) := by
      have := List.drop_left (l0 :: lr) (' ' :: (pct ++ '%' :: tail))
      rw [List.cons_append] at this
      exact this
    rw [hdrop]
    match pct, hne with
    | d :: pct', _ =>
      have hws : List.dropWhile isPySpace (' ' :: ((d :: pct') ++ '%' :: tail)) =
          (d :: pct') ++ '%' :: tail := by
        rw [List.dropWhile_cons, if_pos (by decide), List.cons_append,
          List.dropWhile_cons,
          if_neg (by
            rw [isDigitDot_not_space (hpct d (List.mem_cons_self d pct'))]
            simp)]
      have hrun : List.takeWhile isDigitDot ((d :: pct') ++ '%' :: tail) =
          d :: pct' :=
        takeWhile_app_stop _ hpct (by decide)
      simp only [hws, hrun]
      rw [if_pos (by
        constructor
        · simp
        · rw [show ((d :: pct') ++ '%' :: tail).drop (d :: pct').length =
              '%' :: tail from List.drop_left _ _]
          rfl)]

theorem dropWhile_id_of_head {c : Char} {l : List Char} (h : isPySpace c = false) :
    List.dropWhile isPySpace (c :: l) = c :: l := by
  rw [List.dropWhile_cons, if_neg (by rw [h]; simp)]

theorem pyStrip_usageMsg (x y : Nat) : pyStrip (usageMsg x y) = usageMsg x y := by
  have e1 : (usageMsg x y).dropWhile isPySpace = usageMsg x y := by
    obtain ⟨t1, ht1⟩ : ∃ t, usageMsg x y = 'U' :: t := ⟨_, rfl⟩
    rw [ht1]
    exact dropWhile_id_of_head (by decide)
  have e2 : (usageMsg x y).reverse.dropWhile isPySpace = (usageMsg x y).reverse := by
    obtain ⟨t2, ht2⟩ : ∃ t, (usageMsg x y).reverse = '%' :: t :=
      ⟨("Uso CPU: ".toList ++ pctChars x ++ "% | Uso Memória: ".toList ++
        pctChars y).reverse, by rw [usageMsg, List.reverse_append]; try exact rfl⟩
    rw [ht2]
    exact dropWhile_id_of_head (by decide)
  unfold pyStrip
  rw [e1, e2, List.reverse_reverse]

theorem pctChars_isDigitDot (t : Nat) : ∀ c ∈ pctChars t, isDigitDot c = true := by
  intro c hc
  rcases pctChars_all_digitDot t c hc with h|h
  · exact isDigit_isDigitDot h
  · rw [h]; decide

theorem memLit_decomp :
    memLit = ['U','s','o',' ','M','e','m','ó','r','i','a',':'] := by decide

theorem pctSearch_cpu_usage (x y : Nat) :
    pctSearch cpuLit (usageMsg x y) = some (pctChars x) := by
  have hm : usageMsg x y =
      cpuLit ++ (' ' :: (pctChars x ++ '%' ::
        (" | Uso Memória: ".toList ++ (pctChars y ++ ['%'])))) := by
    simp only [usageMsg, cpuLit, List.append_assoc]
    rfl
  rw [hm]
  exact pctSearch_found _ _ (by decide) (pctChars_isDigitDot x) (pctChars_ne_nil x)

theorem pctSearch_mem_usage (x y : Nat) :
    pctSearch memLit (usageMsg x y) = some (pctChars y) := by
  have hm : usageMsg x y =
      'U' :: 's' :: 'o' :: ' ' :: 'C' :: 'P' :: 'U' :: ':' :: ' ' ::
        (pctChars x ++ ('%' :: ' ' :: '|' :: ' ' ::
          (memLit ++ (' ' :: (pctChars y ++ '%' :: []))))) := by
    simp only [usageMsg, memLit, List.append_assoc]
    rfl
  rw [hm]
  rw [pctSearch_skip_char (by simp +decide [memLit_decomp, startsWith])]
  rw [pctSearch_skip_char (by simp +decide [memLit_decomp, startsWith])]
  rw [pctSearch_skip_char (by simp +decide [memLit_decomp, startsWith])]
  rw [pctSearch_skip_char (by simp +decide [memLit_decomp, startsWith])]
  rw [pctSearch_skip_char (by simp +decide [memLit_decomp, startsWith])]
  rw [pctSearch_skip_char (by simp +decide [memLit_decomp, startsWith])]
  rw [pctSearch_skip_char (by simp +decide [memLit_decomp, startsWith])]
  rw [pctSearch_skip_char (by simp +decide [memLit_decomp, startsWith])]
  rw [pctSearch_skip_char (by simp +decide [memLit_decomp, startsWith])]
  rw [pctSearch_skip_block memLit_decomp (pctChars x) _ (pctChars_ne_upperU x)]
  rw [pctSearch_skip_char (by simp +decide [memLit_decomp, startsWith])]
  rw [pctSearch_skip_char (by simp +decide [memLit_decomp, startsWith])]
  rw [pctSearch_skip_char (by simp +decide [memLit_decomp, startsWith])]
  rw [pctSearch_skip_char (by simp +decide [memLit_decomp, startsWith])]
  exact pctSearch_found _ _ (by decide) (pctChars_isDigitDot y) (pctChars_ne_nil y)

/-- Claim C2: round-trip of the line format.  For every line produced by
the procmon_utils formatter from a timestamp, a level, a PID list (or
the `N/A` default) and a message of the form
`'Uso CPU: x% | Uso Memória: y%'` with one-decimal percentages, the
fixed-format parser `parse_log_line` returns exactly the original
second-precision timestamp string, the original comma-joined PID list
(or `N/A`), and the original `x` and `y` percentage strings. -/
theorem claim_C2 (t : DateTime) (lvl : Level) (pids : Option (List Nat))
    (x y : Nat) :
    parse_log_line (emitLine t lvl pids (usageMsg x y)) =
      some (renderTs t, pidsField pids, pctChars x, pctChars y) := by
  have hline : emitLine t lvl pids (usageMsg x y) =
      renderTs t ++ (sepChars ++ (renderLevel lvl ++ (sepChars ++
        (("PIDs[".toList ++ (pidsField pids ++ [']'])) ++
          (sepChars ++ usageMsg x y))))) := by
    rw [emitLine_eq]
    simp only [List.append_assoc]
    rfl
  unfold parse_log_line
  rw [hline]
  rw [pySplit_sep_append _ _ (noAdjCC_renderTs t)]
  rw [pySplit_sep_append _ _ (noAdjCC_renderLevel lvl)]
  rw [pySplit_sep_append _ _ (noAdjCC_pidsPart pids)]
  rw [pySplit_no_sep _ (noAdjCC_usageMsg x y)]
  simp only [pidsSearch_eval, pyStrip_usageMsg, pctSearch_cpu_usage,
    pctSearch_mem_usage, Option.getD_some]

/-! ## Log sink registry (`setup_logger`)

`setup_logger` (procmon_utils.py lines 39-79; procmon.py lines 64-99 is
the same close-then-reopen discipline) manages one `logging.FileHandler`
per logger.  The embedding keeps the two module-level dictionaries as
association lists and reports every file-handle effect as an event:
`openedH` when a `FileHandler` is constructed (line 65, which opens the
file), `closedH` when `handler.close()` runs (line 49). -/

structure Handler where
  hid : Nat
  baseFilename : List Char
deriving DecidableEq, Repr

structure RegState where
  loggers : List (String × List Handler)
  filenames : List (String × List Char)
  nextHid : Nat
deriving DecidableEq, Repr

inductive RegEv where
  | closedH (hid : Nat) (name : String)
  | openedH (hid : Nat) (name : String)
deriving DecidableEq, Repr

/-- Dictionary lookup (`dict.get`). -/
def dlookup {β : Type} (k : String) : List (String × β) → Option β
  | [] => none
  | (k', v) :: rest => if k = k' then some v else dlookup k rest

/-- Dictionary assignment (`dict[k] = v`). -/
def dupdate {β : Type} (k : String) (v : β) : List (String × β) → List (String × β)
  | [] => [(k, v)]
  | (k', v') :: rest => if k = k' then (k, v) :: rest else (k', v') :: dupdate k v rest

/-- Embedding of `setup_logger(name, log_file, ...)` from
procmon_utils.py lines 39-79 acting on the registry state:

* if the logger exists, every `FileHandler` whose `baseFilename` equals
  the recorded filename for `name` is closed and removed (lines 46-50);
* a fresh `FileHandler` for `log_file` is then constructed — the file is
  opened at this point (line 65) — and added unless a surviving handler
  already points at `log_file` (lines 69-74);
* both dictionaries are updated (lines 77-78).

The returned event list has the closes first, then the single open,
matching the source order. -/
def setup_logger_reg (st : RegState) (name : String) (log_file : List Char) :
    RegState × List RegEv :=
  match dlookup name st.loggers with
  | some handlers =>
    let recorded := dlookup name st.filenames
    let removed := handlers.filter (fun h => decide (some h.baseFilename = recorded))
    let kept := handlers.filter (fun h => decide (¬ some h.baseFilename = recorded))
    let newH : Handler := ⟨st.nextHid, log_file⟩
    let handler_exists := kept.any (fun h => decide (h.baseFilename = log_file))
    let newHandlers := if handler_exists = true then kept else kept ++ [newH]
    (⟨dupdate name newHandlers st.loggers, dupdate name log_file st.filenames,
      st.nextHid + 1⟩,
     removed.map (fun h => RegEv.closedH h.hid name) ++ [RegEv.openedH st.nextHid name])
  | none =>
    let newH : Handler := ⟨st.nextHid, log_file⟩
    (⟨dupdate name [newH] st.loggers, dupdate name log_file st.filenames,
      st.nextHid + 1⟩,
     [RegEv.openedH st.nextHid name])

def regInit : RegState := ⟨[], [], 0⟩

/-- Replay of a sequence of `setup_logger` calls. -/
def regRun : RegState → List (String × List Char) → RegState × List RegEv
  | st, [] => (st, [])
  | st, (name, file) :: calls =>
    let r := setup_logger_reg st name file
    let rest := regRun r.1 calls
    (rest.1, r.2 ++ rest.2)

def regTrace (calls : List (String × List Char)) : List RegEv :=
  (regRun regInit calls).2

/-- Set of currently-open handles after a trace: an `openedH` adds the
handle, a `closedH` removes it. -/
def applyRegEv (s : List (Nat × String)) : RegEv → List (Nat × String)
  | RegEv.openedH h n => s ++ [(h, n)]
  | RegEv.closedH h n => s.filter (fun p => decide (¬ p = (h, n)))

def openHandles (tr : List RegEv) : List (Nat × String) :=
  List.foldl applyRegEv [] tr

/-- Number of open handles belonging to one target name. -/
def countFor (name : String) (os : List (Nat × String)) : Nat :=
  (os.filter (fun p => decide (p.2 = name))).length

/-- Registry invariant tying the dictionaries to the set of open
handles: each bound name has exactly one handler, whose file is the
recorded filename and whose handle is the unique open one. -/
def regINV (st : RegState) (os : List (Nat × String)) : Prop :=
  ∀ name,
    (dlookup name st.loggers = none ∧
      os.filter (fun p => decide (p.2 = name)) = []) ∨
    (∃ h, dlookup name st.loggers = some [h] ∧
      dlookup name st.filenames = some h.baseFilename ∧
      os.filter (fun p => decide (p.2 = name)) = [(h.hid, name)])

theorem regINV_init : regINV regInit [] := by
  intro name
  left
  exact ⟨rfl, rfl⟩

theorem regINV_count {st : RegState} {os : List (Nat × String)}
    (h : regINV st os) (name : String) : countFor name os ≤ 1 := by
  rcases h name with ⟨_, hf⟩|⟨hh, _, _, hf⟩ <;> simp [countFor, hf]

theorem dlookup_dupdate_self {β : Type} (k : String) (v : β) (l : List (String × β)) :
    dlookup k (dupdate k v l) = some v := by
  induction l with
  | nil => simp [dlookup, dupdate]
  | cons p rest ih =>
    obtain ⟨k', v'⟩ := p
    by_cases hk : k = k' <;> simp [dlookup, dupdate, hk, ih]

theorem dlookup_dupdate_other {β : Type} {k k' : String} (hne : k ≠ k') (v : β)
    (l : List (String × β)) :
    dlookup k (dupdate k' v l) = dlookup k l := by
  induction l with
  | nil => simp [dlookup, dupdate, hne]
  | cons p rest ih =>
    obtain ⟨k'', v''⟩ := p
    by_cases h1 : k' = k''
    · subst h1
      simp [dlookup, dupdate, hne]
    · by_cases h2 : k = k'' <;> simp [dlookup, dupdate, h1, h2, ih]

theorem filter_comm_pair (os : List (Nat × String)) (p q : Nat × String → Bool) :
    (os.filter p).filter q = (os.filter q).filter p := by
  rw [List.filter_filter, List.filter_filter]
  exact List.filter_congr (fun a _ => Bool.and_comm _ _)

theorem filter_close_self {os : List (Nat × String)} {name : String} {hid : Nat}
    (hos : os.filter (fun p => decide (p.2 = name)) = [(hid, name)]) :
    ((os.filter (fun p => decide (¬ p = (hid, name)))).filter
      (fun p => decide (p.2 = name))) = [] := by
  rw [filter_comm_pair, hos]
  simp

theorem filter_close_other {os : List (Nat × String)} {nm name : String}
    (hne : nm ≠ name) (hid : Nat) :
    ((os.filter (fun p => decide (¬ p = (hid, name)))).filter
      (fun p => decide (p.2 = nm))) = os.filter (fun p => decide (p.2 = nm)) := by
  rw [filter_comm_pair]
  apply List.filter_eq_self.mpr
  intro a ha
  have ha2 : a.2 = nm := of_decide_eq_true (List.mem_filter.mp ha).2
  simp only [decide_eq_true_eq]
  intro heq
  rw [heq] at ha2
  exact hne ha2.symm

theorem filter_open_self (os : List (Nat × String)) (k : Nat) (name : String) :
    (os ++ [(k, name)]).filter (fun p => decide (p.2 = name)) =
      os.filter (fun p => decide (p.2 = name)) ++ [(k, name)] := by
  rw [List.filter_append]
  simp

theorem filter_open_other (os : List (Nat × String)) (k : Nat) {name nm : String}
    (hne : nm ≠ name) :
    (os ++ [(k, name)]).filter (fun p => decide (p.2 = nm)) =
      os.filter (fun p => decide (p.2 = nm)) := by
  rw [List.filter_append]
  have hsingle : List.filter (fun p => decide (p.2 = nm)) [(k, name)] = [] := by
    simp
    exact fun hh => hne hh.symm
  rw [hsingle, List.append_nil]

theorem setup_logger_reg_step {st : RegState} {os : List (Nat × String)}
    (hinv : regINV st os) (name : String) (file : List Char) :
    regINV (setup_logger_reg st name file).1
      (List.foldl applyRegEv os (setup_logger_reg st name file).2) ∧
    (∀ pre suf, (setup_logger_reg st name file).2 = pre ++ suf →
      ∀ nm, countFor nm (List.foldl applyRegEv os pre) ≤ 1) := by
  rcases hinv name with ⟨hlook, hos⟩|⟨h, hlook, hfile, hos⟩
  · -- fresh logger: one `openedH` event
    have hred : setup_logger_reg st name file =
        (⟨dupdate name [⟨st.nextHid, file⟩] st.loggers,
          dupdate name file st.filenames, st.nextHid + 1⟩,
         [RegEv.openedH st.nextHid name]) := by
      unfold setup_logger_reg
      rw [hlook]
    rw [hred]
    constructor
    · intro nm
      by_cases hnm : nm = name
      · subst hnm
        right
        refine ⟨⟨st.nextHid, file⟩, ?_, ?_, ?_⟩
        · rw [dlookup_dupdate_self]
        · rw [dlookup_dupdate_self]
        · show (os ++ [(st.nextHid, nm)]).filter _ = _
          rw [filter_open_self, hos]
          rfl
      · rcases hinv nm with ⟨hl2, ho2⟩|⟨h2, hl2, hf2, ho2⟩
        · left
          refine ⟨?_, ?_⟩
          · rw [dlookup_dupdate_other hnm, hl2]
          · show (os ++ [(st.nextHid, name)]).filter _ = _
            rw [filter_open_other _ _ hnm, ho2]
        · right
          refine ⟨h2, ?_, ?_, ?_⟩
          · rw [dlookup_dupdate_other hnm, hl2]
          · rw [dlookup_dupdate_other hnm, hf2]
          · show (os ++ [(st.nextHid, name)]).filter _ = _
            rw [filter_open_other _ _ hnm, ho2]
    · intro pre suf hsplit nm
      cases pre with
      | nil =>
        show countFor nm os ≤ 1
        exact regINV_count hinv nm
      | cons e pre' =>
        have he : e = RegEv.openedH st.nextHid name ∧ pre' = [] := by
          cases pre' with
          | nil =>
            injection hsplit with h1 h2
            exact ⟨h1.symm, rfl⟩
          | cons e2 pre'' =>
            injection hsplit with h1 h2
            exact absurd h2.symm (by simp)
        rw [he.1, he.2]
        show countFor nm (applyRegEv os (RegEv.openedH st.nextHid name)) ≤ 1
        show ((os ++ [(st.nextHid, name)]).filter
          (fun p => decide (p.2 = nm))).length ≤ 1
        by_cases hnm : nm = name
        · subst hnm
          rw [filter_open_self, hos]
          simp
        · rw [filter_open_other _ _ hnm]
          exact regINV_count hinv nm
  · -- existing logger: close the recorded handler, then open a fresh one
    have hred : setup_logger_reg st name file =
        (⟨dupdate name [⟨st.nextHid, file⟩] st.loggers,
          dupdate name file st.filenames, st.nextHid + 1⟩,
         [RegEv.closedH h.hid name, RegEv.openedH st.nextHid name]) := by
      unfold setup_logger_reg
      rw [hlook]
      simp only [hfile]
      simp [List.filter_cons]
    rw [hred]
    constructor
    · intro nm
      by_cases hnm : nm = name
      · subst hnm
        right
        refine ⟨⟨st.nextHid, file⟩, ?_, ?_, ?_⟩
        · rw [dlookup_dupdate_self]
        · rw [dlookup_dupdate_self]
        · show ((os.filter (fun p => decide (¬ p = (h.hid, nm)))) ++
            [(st.nextHid, nm)]).filter _ = _
          rw [filter_open_self, filter_close_self hos]
          rfl
      · rcases hinv nm with ⟨hl2, ho2⟩|⟨h2, hl2, hf2, ho2⟩
        · left
          refine ⟨?_, ?_⟩
          · rw [dlookup_dupdate_other hnm, hl2]
          · show ((os.filter (fun p => decide (¬ p = (h.hid, name)))) ++
              [(st.nextHid, name)]).filter _ = _
            rw [filter_open_other _ _ hnm, filter_close_other hnm, ho2]
        · right
          refine ⟨h2, ?_, ?_, ?_⟩
          · rw [dlookup_dupdate_other hnm, hl2]
          · rw [dlookup_dupdate_other hnm, hf2]
          · show ((os.filter (fun p => decide (¬ p = (h.hid, name)))) ++
              [(st.nextHid, name)]).filter _ = _
            rw [filter_open_other _ _ hnm, filter_close_other hnm, ho2]
    · intro pre suf hsplit nm
      match pre, hsplit with
      | [], _ =>
        show countFor nm os ≤ 1
        exact regINV_count hinv nm
      | [e1], hsp =>
        have he1 : RegEv.closedH h.hid name = e1 := by injection hsp
        rw [← he1]
        show ((os.filter (fun p => decide (¬ p = (h.hid, name)))).filter
          (fun p => decide (p.2 = nm))).length ≤ 1
        by_cases hnm : nm = name
        · subst hnm
          rw [filter_close_self hos]
          simp
        · rw [filter_close_other hnm]
          exact regINV_count hinv nm
      | e1 :: e2 :: pre'', hsp =>
        have he : RegEv.closedH h.hid name = e1 ∧
            RegEv.openedH st.nextHid name = e2 ∧ pre'' = [] := by
          injection hsp with h1 h2
          cases pre'' with
          | nil => exact ⟨h1, by injection h2, rfl⟩
          | cons e3 pre3 =>
            injection h2 with h3 h4
            exact absurd h4.symm (by simp)
        rw [← he.1, ← he.2.1, he.2.2]
        show (((os.filter (fun p => decide (¬ p = (h.hid, name)))) ++
          [(st.nextHid, name)]).filter (fun p => decide (p.2 = nm))).length ≤ 1
        by_cases hnm : nm = name
        · subst hnm
          rw [filter_open_self, filter_close_self hos]
          simp
        · rw [filter_open_other _ _ hnm, filter_close_other hnm]
          exact regINV_count hinv nm

theorem regRun_prefix_count :
    ∀ (calls : List (String × List Char)) (st : RegState)
      (os : List (Nat × String)), regINV st os →
      ∀ pre suf, (regRun st calls).2 = pre ++ suf →
      ∀ nm, countFor nm (List.foldl applyRegEv os pre) ≤ 1 := by
  intro calls
  induction calls with
  | nil =>
    intro st os hinv pre suf hsplit nm
    have hpre : pre = [] := by
      have h0 : ([] : List RegEv) = pre ++ suf := hsplit
      cases pre with
      | nil => rfl
      | cons _ _ => exact absurd h0.symm (by simp)
    rw [hpre]
    exact regINV_count hinv nm
  | cons call calls' ih =>
    obtain ⟨name, file⟩ := call
    intro st os hinv pre suf hsplit nm
    obtain ⟨hinv', hpre⟩ := setup_logger_reg_step hinv name file
    have hsplit' : (setup_logger_reg st name file).2 ++
        (regRun (setup_logger_reg st name file).1 calls').2 = pre ++ suf := hsplit
    rcases List.append_eq_append_iff.mp hsplit' with ⟨a', ha1, ha2⟩ | ⟨c', hc1, hc2⟩
    · rw [ha1, List.foldl_append]
      exact ih _ _ hinv' a' suf ha2 nm
    · exact hpre pre c' hc1 nm

/-- Claim C3, counterexample to the claim as stated: after
`setup_logger('global', 'f.log')` has succeeded (trace: one open),
calling it again with the identical path closes the existing handler
and opens a new one — the handler whose `baseFilename` equals the
recorded filename is removed and closed (procmon_utils.py lines 46-50)
even when that filename is the requested one, and a fresh `FileHandler`
is then constructed (line 65). -/
theorem claim_C3_counterexample :
    (setup_logger_reg regInit "global" "f.log".toList).2 =
      [RegEv.openedH 0 "global"] ∧
    (setup_logger_reg (setup_logger_reg regInit "global" "f.log".toList).1
      "global" "f.log".toList).2 =
      [RegEv.closedH 0 "global", RegEv.openedH 1 "global"] :=
  ⟨by decide, by decide⟩

/-- Claim C3 (amended): rebinding a target to the identical path is not
a no-op — `setup_logger` closes the old handler and opens a fresh one —
but the second half of the claim holds: in every sequence of
`setup_logger` calls starting from the initial empty registry, at every
point of the handle-event trace (including the instants between a close
and the following open) at most one handle is open per target name. -/
theorem claim_C3_amended (calls : List (String × List Char))
    (pre suf : List RegEv) (h : regTrace calls = pre ++ suf) (name : String) :
    countFor name (openHandles pre) ≤ 1 :=
  regRun_prefix_count calls regInit [] regINV_init pre suf h name

/-- Witness for `claim_C3_amended` at a concrete rebind-twice trace. -/
theorem claim_C3_witness :
    regTrace [("global", "f.log".toList), ("global", "f.log".toList)] =
      [RegEv.openedH 0 "global", RegEv.closedH 0 "global"] ++
        [RegEv.openedH 1 "global"] ∧
    countFor "global"
      (openHandles [RegEv.openedH 0 "global", RegEv.closedH 0 "global"]) ≤ 1 :=
  ⟨by decide,
   claim_C3_amended [("global", "f.log".toList), ("global", "f.log".toList)]
     [RegEv.openedH 0 "global", RegEv.closedH 0 "global"]
     [RegEv.openedH 1 "global"] (by decide) "global"⟩

/-! ## Claims about the metric sampler (C6, C10, C7) -/

theorem procStatsLoop_nomatch (pattern : List Char) :
    ∀ (procs : List ProcEntry) (c m : ℚ) (ps : List Nat),
      (∀ info, ProcEntry.ok info ∈ procs → nameMatches pattern info.name = false) →
      procStatsLoop pattern procs c m ps = (c, m, ps) := by
  intro procs
  induction procs with
  | nil => intro c m ps _; rfl
  | cons pe rest ih =>
    intro c m ps hno
    cases pe with
    | raises =>
      show procStatsLoop pattern rest c m ps = (c, m, ps)
      exact ih c m ps (fun info hmem => hno info (List.mem_cons_of_mem _ hmem))
    | ok info =>
      show (if nameMatches pattern info.name = true then _ else _) = (c, m, ps)
      rw [if_neg (by rw [hno info (List.mem_cons_self _ _)]; simp)]
      exact ih c m ps (fun i hmem => hno i (List.mem_cons_of_mem _ hmem))

/-- Claim C6: a pattern matching zero live processes yields
`(0.0, 0.0, [])` without raising — entries that raise
`NoSuchProcess`/`AccessDenied`/`ZombieProcess` are silently skipped —
and `StatsCollectionError` is raised exactly when the process
enumeration itself fails. -/
theorem claim_C6 (pattern : List Char) (procs : List ProcEntry)
    (hnomatch : ∀ info, ProcEntry.ok info ∈ procs →
      nameMatches pattern info.name = false) :
    get_process_stats pattern (Enumeration.ok procs) = Except.ok (0, 0, []) ∧
    (∀ e : Enumeration,
      (∃ err, get_process_stats pattern e = Except.error err) ↔
        e = Enumeration.fail) := by
  constructor
  · show Except.ok (procStatsLoop pattern procs 0 0 []) = _
    rw [procStatsLoop_nomatch pattern procs 0 0 [] hnomatch]
  · intro e
    cases e with
    | ok procs' =>
      constructor
      · rintro ⟨err, herr⟩
        exact absurd herr (by simp [get_process_stats])
      · intro h
        exact absurd h (by simp)
    | fail => exact ⟨fun _ => rfl, fun _ => ⟨⟨⟩, rfl⟩⟩

/-- Witness for `claim_C6` at a concrete non-matching process table
containing both an accessible non-matching process and a raising
entry. -/
theorem claim_C6_witness :
    get_process_stats "nomatch".toList (Enumeration.ok
      [ProcEntry.ok ⟨1, some "bash".toList, some 1, some 2⟩,
       ProcEntry.raises]) = Except.ok (0, 0, []) ∧
    (∀ e : Enumeration,
      (∃ err, get_process_stats "nomatch".toList e = Except.error err) ↔
        e = Enumeration.fail) :=
  claim_C6 "nomatch".toList
    [ProcEntry.ok ⟨1, some "bash".toList, some 1, some 2⟩, ProcEntry.raises]
    (by
      intro info hmem
      rcases List.mem_cons.mp hmem with h|h
      · cases h; decide
      · rcases List.mem_cons.mp h with h|h
        · exact absurd h (by simp)
        · exact absurd h (List.not_mem_nil _))

/-- Claim C10: a live process whose name matches but whose
`cpu_percent` or `memory_percent` is reported as `None` is still
counted as found — its PID is appended to the scan state and it
contributes `0.0` to both sums — so some inputs yield a non-empty PID
list with both totals exactly `0.0`. -/
theorem claim_C10 :
    (∀ (pattern : List Char) (c m : ℚ) (ps : List Nat) (info : ProcInfo)
      (rest : List ProcEntry),
      nameMatches pattern info.name = true →
      info.cpu_percent = none → info.memory_percent = none →
      procStatsLoop pattern (ProcEntry.ok info :: rest) c m ps =
        procStatsLoop pattern rest c m (ps ++ [info.pid])) ∧
    (∃ (pattern : List Char) (procs : List ProcEntry) (r : ℚ × ℚ × List Nat),
      get_process_stats pattern (Enumeration.ok procs) = Except.ok r ∧
      r.1 = 0 ∧ r.2.1 = 0 ∧ r.2.2 ≠ []) := by
  constructor
  · intro pattern c m ps info rest hmatch hcpu hmem
    show (if nameMatches pattern info.name = true then _ else _) = _
    rw [if_pos hmatch, hcpu, hmem]
    show procStatsLoop pattern rest (c + 0) (m + 0) _ = _
    rw [add_zero, add_zero]
  · refine ⟨"x".toList, [ProcEntry.ok ⟨42, some "x".toList, none, none⟩],
      (0, 0, [42]), ?_, rfl, rfl, by simp⟩
    show Except.ok (procStatsLoop _ _ 0 0 []) = _
    show Except.ok (if nameMatches "x".toList (some "x".toList) = true
      then _ else _) = _
    rw [if_pos (by decide)]
    show Except.ok (procStatsLoop _ [] (0 + (Option.getD none 0))
      (0 + (Option.getD none 0)) ([] ++ [42])) = _
    norm_num
    rfl

/-- Witness for the universally quantified half of `claim_C10` at a
concrete matching process with `None` metrics. -/
theorem claim_C10_witness :
    procStatsLoop "x".toList
      [ProcEntry.ok ⟨42, some "x".toList, none, none⟩] 0 0 [] =
      procStatsLoop "x".toList [] 0 0 ([] ++ [42]) :=
  claim_C10.1 "x".toList 0 0 [] ⟨42, some "x".toList, none, none⟩ []
    (by decide) rfl rfl

/-- Membership in the candidate list of `get_top_processes`: an entry
enters `processes_data` exactly when the enumerated process is
accessible, has a truthy (non-empty) name, and has BOTH percentages
present. -/
theorem topCollect_mem (procs : List ProcEntry) (e : TopEntry) :
    e ∈ topCollect procs ↔
      ProcEntry.ok ⟨e.pid, some e.name, some e.cpu, some e.mem⟩ ∈ procs ∧
        e.name ≠ [] := by
  induction procs with
  | nil => simp [topCollect]
  | cons pe rest ih =>
    cases pe with
    | raises =>
      show e ∈ topCollect rest ↔ _
      rw [ih]
      constructor
      · rintro ⟨hmem, hne⟩
        exact ⟨List.mem_cons_of_mem _ hmem, hne⟩
      · rintro ⟨hmem, hne⟩
        rcases List.mem_cons.mp hmem with h|h
        · exact absurd h (by simp)
        · exact ⟨h, hne⟩
    | ok info =>
      obtain ⟨pid, name, cpu, mem⟩ := info
      match name, cpu, mem with
      | some nm, some c, some m =>
        show e ∈ (if nm ≠ [] then (⟨pid, nm, c, m⟩ : TopEntry) :: topCollect rest
          else topCollect rest) ↔ _
        by_cases hnm : nm = []
        · rw [if_neg (by simp [hnm])]
          rw [ih]
          constructor
          · rintro ⟨hmem, hne⟩
            exact ⟨List.mem_cons_of_mem _ hmem, hne⟩
          · rintro ⟨hmem, hne⟩
            rcases List.mem_cons.mp hmem with h|h
            · injection h with h2
              injection h2 with _ h3
              obtain rfl : e.name = nm := by injection h3
              exact absurd hnm hne
            · exact ⟨h, hne⟩
        · rw [if_pos hnm]
          constructor
          · intro hmem
            rcases List.mem_cons.mp hmem with h|h
            · subst h
              exact ⟨List.mem_cons_self _ _, hnm⟩
            · obtain ⟨hmem2, hne⟩ := ih.mp h
              exact ⟨List.mem_cons_of_mem _ hmem2, hne⟩
          · rintro ⟨hmem, hne⟩
            rcases List.mem_cons.mp hmem with h|h
            · have he : e = ⟨pid, nm, c, m⟩ := by
                obtain ⟨ep, en, ec, em⟩ := e
                simp only [ProcEntry.ok.injEq, ProcInfo.mk.injEq,
                  Option.some.injEq] at h
                obtain ⟨h1, h2, h3, h4⟩ := h
                subst h1; subst h2; subst h3; subst h4
                rfl
              rw [he]
              exact List.mem_cons_self _ _
            · exact List.mem_cons_of_mem _ (ih.mpr ⟨h, hne⟩)
      | none, _, _ =>
        show e ∈ topCollect rest ↔ _
        rw [ih]
        constructor
        · rintro ⟨hmem, hne⟩
          exact ⟨List.mem_cons_of_mem _ hmem, hne⟩
        · rintro ⟨hmem, hne⟩
          rcases List.mem_cons.mp hmem with h|h
          · injection h with h2
            injection h2 with _ h3
            exact absurd h3 (by simp)
          · exact ⟨h, hne⟩
      | some nm, none, _ =>
        show e ∈ topCollect rest ↔ _
        rw [ih]
        constructor
        · rintro ⟨hmem, hne⟩
          exact ⟨List.mem_cons_of_mem _ hmem, hne⟩
        · rintro ⟨hmem, hne⟩
          rcases List.mem_cons.mp hmem with h|h
          · injection h with h2
            injection h2 with _ _ h4
            exact absurd h4 (by simp)
          · exact ⟨h, hne⟩
      | some nm, some c, none =>
        show e ∈ topCollect rest ↔ _
        rw [ih]
        constructor
        · rintro ⟨hmem, hne⟩
          exact ⟨List.mem_cons_of_mem _ hmem, hne⟩
        · rintro ⟨hmem, hne⟩
          rcases List.mem_cons.mp hmem with h|h
          · injection h with h2
            injection h2 with _ _ _ h5
            exact absurd h5 (by simp)
          · exact ⟨h, hne⟩

theorem withIdx_mem_snd {p : Nat × TopEntry} :
    ∀ {i : Nat} {l : List TopEntry}, p ∈ withIdx i l → p.2 ∈ l := by
  intro i l
  induction l generalizing i with
  | nil => intro h; exact absurd h (List.not_mem_nil p)
  | cons a rest ih =>
    intro h
    rcases List.mem_cons.mp h with h|h
    · rw [h]; exact List.mem_cons_self _ _
    · exact List.mem_cons_of_mem _ (ih h)

theorem withIdx_pairwise {R : TopEntry → TopEntry → Prop} :
    ∀ {l : List TopEntry} {i : Nat}, l.Pairwise R →
      (withIdx i l).Pairwise (fun a b => R a.2 b.2) := by
  intro l
  induction l with
  | nil => intro i _; exact List.Pairwise.nil
  | cons a rest ih =>
    intro i h
    rcases List.pairwise_cons.mp h with ⟨ha, hrest⟩
    refine List.pairwise_cons.mpr ⟨?_, ih hrest⟩
    intro b hb
    exact ha b.2 (withIdx_mem_snd hb)

theorem withIdx_map_snd : ∀ (i : Nat) (l : List TopEntry),
    (withIdx i l).map Prod.snd = l := by
  intro i l
  induction l generalizing i with
  | nil => rfl
  | cons a rest ih => simp [withIdx, ih]

theorem topCollect_pairwise_pid {procs : List ProcEntry}
    (h : procs.Pairwise (fun p q => ∀ i j, p = ProcEntry.ok i →
      q = ProcEntry.ok j → i.pid ≠ j.pid)) :
    (topCollect procs).Pairwise (fun a b => a.pid ≠ b.pid) := by
  induction procs with
  | nil => exact List.Pairwise.nil
  | cons pe rest ih =>
    rcases List.pairwise_cons.mp h with ⟨hpe, hrest⟩
    cases pe with
    | raises => exact ih hrest
    | ok info =>
      obtain ⟨pid, name, cpu, mem⟩ := info
      match name, cpu, mem with
      | some nm, some c, some m =>
        show ((if nm ≠ [] then (⟨pid, nm, c, m⟩ : TopEntry) :: topCollect rest
          else topCollect rest)).Pairwise _
        by_cases hnm : nm = []
        · rw [if_neg (by simp [hnm])]
          exact ih hrest
        · rw [if_pos hnm]
          refine List.pairwise_cons.mpr ⟨?_, ih hrest⟩
          intro b hb
          obtain ⟨hbmem, _⟩ := (topCollect_mem rest b).mp hb
          exact hpe _ hbmem ⟨pid, some nm, some c, some m⟩
            ⟨b.pid, some b.name, some b.cpu, some b.mem⟩ rfl rfl
      | none, _, _ => exact ih hrest
      | some nm, none, _ => exact ih hrest
      | some nm, some c, none => exact ih hrest

/-- Claim C7, counterexample to the claim as stated: ranking by CPU, a
live process that has a name and a present `cpu_percent` (the ranked
metric) but a `None` `memory_percent` is nevertheless excluded —
`get_top_processes` requires BOTH percentages (procmon_utils.py line
149), not just the ranked one. -/
theorem claim_C7_counterexample :
    get_top_processes 10 RankBy.cpu (Enumeration.ok
      [ProcEntry.ok ⟨1, some "a".toList, some 5, none⟩]) = Except.ok [] ∧
    (⟨1, some "a".toList, some 5, none⟩ : ProcInfo).name ≠ none ∧
    (⟨1, some "a".toList, some 5, none⟩ : ProcInfo).cpu_percent ≠ none := by
  refine ⟨rfl, by decide, by decide⟩

/-- Claim C7 (amended): for every `n` and rank metric, the top-N
sampler returns (in the `ok` payload) a sequence of length at most `n`,
sorted descending by the chosen metric; ties keep first-encountered
order (the decorated sorted list is a permutation of the
position-decorated candidate list and is index-sorted inside every tie
class); PIDs are distinct whenever the enumerated processes have
distinct PIDs; and a process is excluded exactly when it is missing a
name or missing EITHER of the two metrics. -/
theorem claim_C7_amended (n : Nat) (ty : RankBy) (procs : List ProcEntry) :
    get_top_processes n ty (Enumeration.ok procs) =
      Except.ok (((topSortedIdx ty procs).map Prod.snd).take n) ∧
    (((topSortedIdx ty procs).map Prod.snd).take n).length ≤ n ∧
    (((topSortedIdx ty procs).map Prod.snd).take n).Pairwise
      (fun a b => rankKey ty b ≤ rankKey ty a) ∧
    (topSortedIdx ty procs).Pairwise
      (fun a b => rankKey ty a.2 = rankKey ty b.2 → a.1 ≤ b.1) ∧
    List.Perm (topSortedIdx ty procs) (withIdx 0 (topCollect procs)) ∧
    (procs.Pairwise (fun p q => ∀ i j, p = ProcEntry.ok i →
        q = ProcEntry.ok j → i.pid ≠ j.pid) →
      (((topSortedIdx ty procs).map Prod.snd).take n).Pairwise
        (fun a b => a.pid ≠ b.pid)) ∧
    (∀ e : TopEntry, e ∈ topCollect procs ↔
      ProcEntry.ok ⟨e.pid, some e.name, some e.cpu, some e.mem⟩ ∈ procs ∧
        e.name ≠ []) := by
  have hsorted := List.sorted_insertionSort (topRel (rankKey ty))
    (withIdx 0 (topCollect procs))
  have hperm : List.Perm (topSortedIdx ty procs) (withIdx 0 (topCollect procs)) :=
    List.perm_insertionSort _ _
  refine ⟨rfl, List.length_take_le _ _, ?_, ?_, hperm, ?_, topCollect_mem procs⟩
  · refine List.Pairwise.sublist (List.take_sublist _ _) ?_
    refine List.Pairwise.map _ ?_ hsorted
    intro a b hab
    rcases hab with h|⟨h1, _⟩
    · exact le_of_lt h
    · exact le_of_eq h1.symm
  · refine List.Pairwise.imp ?_ hsorted
    intro a b hab heq
    rcases hab with h|⟨_, h2⟩
    · rw [heq] at h; exact absurd h (lt_irrefl _)
    · exact h2
  · intro hpid
    refine List.Pairwise.sublist (List.take_sublist _ _) ?_
    refine List.Pairwise.map _ (fun a b h => h) ?_
    have hw : (withIdx 0 (topCollect procs)).Pairwise
        (fun a b => a.2.pid ≠ b.2.pid) :=
      withIdx_pairwise (topCollect_pairwise_pid hpid)
    exact (List.Perm.pairwise_iff (fun h => Ne.symm h) hperm).mpr hw

/-- Witness for `claim_C7_amended` at a concrete two-process table with
distinct PIDs. -/
theorem claim_C7_witness :
    get_top_processes 2 RankBy.cpu (Enumeration.ok
      [ProcEntry.ok ⟨1, some "a".toList, some 5, some 1⟩,
       ProcEntry.ok ⟨2, some "b".toList, some 7, some 2⟩]) =
      Except.ok (((topSortedIdx RankBy.cpu
        [ProcEntry.ok ⟨1, some "a".toList, some 5, some 1⟩,
         ProcEntry.ok ⟨2, some "b".toList, some 7, some 2⟩]).map
          Prod.snd).take 2) ∧
    (((topSortedIdx RankBy.cpu
      [ProcEntry.ok ⟨1, some "a".toList, some 5, some 1⟩,
       ProcEntry.ok ⟨2, some "b".toList, some 7, some 2⟩]).map
        Prod.snd).take 2).Pairwise (fun a b => a.pid ≠ b.pid) := by
  obtain ⟨h1, _, _, _, _, h6, _⟩ := claim_C7_amended 2 RankBy.cpu
    [ProcEntry.ok ⟨1, some "a".toList, some 5, some 1⟩,
     ProcEntry.ok ⟨2, some "b".toList, some 7, some 2⟩]
  refine ⟨h1, h6 ?_⟩
  refine List.pairwise_cons.mpr ⟨?_, List.pairwise_cons.mpr
    ⟨?_, List.Pairwise.nil⟩⟩
  · intro q hq i j hpi hqj
    rcases List.mem_cons.mp hq with rfl|hq2
    · injection hpi with hpi2
      injection hqj with hqj2
      subst hpi2
      subst hqj2
      decide
    · exact absurd hq2 (List.not_mem_nil q)
  · intro q hq
    exact absurd hq (List.not_mem_nil q)

/-! ## The monitoring loop (procmon.py `main_monitor_loop`)

One iteration of the `while True` body (procmon.py lines 259-302) is
embedded as a pure `tick` function from the loop state and a
per-tick environment (the wall clock plus the outcomes of the psutil
queries this tick would make) to the next state and the list of
observable effects, in source order: sink closes/opens (`setup_logger`),
log-record writes, and stderr prints.  Record messages are carried
structurally; their textual rendering is covered by the formatter
embedding above. -/

inductive Msg where
  | rotMarker
  | usage (cpu mem : ℚ)
  | notFound (pname : List Char)
  | errGlobal
  | errProc (pname : List Char)
  | topten (body : List Char)
  | errCore
  | errTopten
deriving DecidableEq, Repr

inductive LoopEv where
  | closeSink (target : List Char)
  | openSink (target : List Char) (path : List Char)
  | write (target : List Char) (lvl : Level) (m : Msg)
  | stderrLog
deriving DecidableEq, Repr

structure Config where
  log_path : List Char
  template : List Char
  procNames : List (List Char)
  topN : Nat
  rankBy : RankBy

structure LoopSt where
  lastHour : List Char
  bound : List (List Char)
deriving DecidableEq, Repr

/-- Per-tick environment: the wall clock and the outcomes of the psutil
queries made during this tick. -/
structure TickEnv where
  now : DateTime
  sysSample : Except Unit (ℚ × ℚ)
  procEnum : List Char → Enumeration
  coreQ : CoreQuery
  topEnum : Enumeration

def globalName : List Char := "global".toList

/-- Embedding of `get_log_filename` (procmon.py lines 57-62): replace
`%DATAHORA%` in the template, prefix the process name if any, join with
the log directory (`os.path.join`, posix separator). -/
def get_log_filename (log_path template timestamp_str : List Char)
    (process_name : Option (List Char)) : List Char :=
  let filename := pyReplace "%DATAHORA%".toList timestamp_str template
  let filename := match process_name with
    | some p => p ++ '_' :: filename
    | none => filename
  log_path ++ '/' :: filename

/-- Sink-level abstraction of `setup_logger` (procmon.py lines 64-99):
close the old handle if the target is bound, then open the new file.
The handler-level detail is the `setup_logger_reg` embedding above. -/
def rebind (st : LoopSt) (target path : List Char) : LoopSt × List LoopEv :=
  if target ∈ st.bound then
    (st, [LoopEv.closeSink target, LoopEv.openSink target path])
  else
    ({ st with bound := st.bound ++ [target] }, [LoopEv.openSink target path])

/-- Rotation of the per-process sinks (procmon.py lines 272-275), in
configuration order: rebind, then write the rotation-marker record. -/
def rotateProcs (cfg : Config) (ts : List Char) :
    LoopSt → List (List Char) → LoopSt × List LoopEv
  | st, [] => (st, [])
  | st, p :: rest =>
    let r := rebind st p (get_log_filename cfg.log_path cfg.template ts (some p))
    let rr := rotateProcs cfg ts r.1 rest
    (rr.1, r.2 ++ [LoopEv.write p Level.info Msg.rotMarker] ++ rr.2)

/-- Embedding of `get_system_stats` (procmon.py lines 101-116): on a
psutil failure the error is logged to the global sink if bound, else
printed to stderr, and `(None, None)` is returned. -/
def get_system_stats_py (st : LoopSt) (sample : Except Unit (ℚ × ℚ)) :
    Option (ℚ × ℚ) × List LoopEv :=
  match sample with
  | Except.ok v => (some v, [])
  | Except.error _ =>
    (none,
     if globalName ∈ st.bound then
       [LoopEv.write globalName Level.error Msg.errGlobal]
     else [LoopEv.stderrLog])

/-- Error-reporting wrapper of procmon.py's `get_process_stats` (lines
144-153): on an enumeration failure the error is logged to the process
sink if bound, else to the global sink if bound, else to stderr. -/
def get_process_stats_ev (st : LoopSt) (pname : List Char) (e : Enumeration) :
    Option (ℚ × ℚ) × List LoopEv :=
  match get_process_stats_py pname e with
  | some v => (some v, [])
  | none =>
    (none,
     if pname ∈ st.bound then
       [LoopEv.write pname Level.error (Msg.errProc pname)]
     else if globalName ∈ st.bound then
       [LoopEv.write globalName Level.error (Msg.errProc pname)]
     else [LoopEv.stderrLog])

/-- Global-stats step of the tick (procmon.py lines 280-284). -/
def globalTick (st : LoopSt) (sample : Except Unit (ℚ × ℚ)) : List LoopEv :=
  if globalName ∈ st.bound then
    let r := get_system_stats_py st sample
    match r.1 with
    | some (cpu, mem) =>
      r.2 ++ [LoopEv.write globalName Level.info (Msg.usage cpu mem)]
    | none => r.2
  else []

/-- Per-process step of the tick (procmon.py lines 287-298): the
informational record is chosen by `proc_cpu == 0.0 and proc_mem == 0.0`
(line 291), not by the PID list. -/
def procTick (st : LoopSt) (pname : List Char) (e : Enumeration) : List LoopEv :=
  if pname ∈ st.bound then
    let r := get_process_stats_ev st pname e
    match r.1 with
    | some (cpu, mem) =>
      r.2 ++ (if cpu = 0 ∧ mem = 0 then
        [LoopEv.write pname Level.info (Msg.notFound pname)]
      else
        [LoopEv.write pname Level.info (Msg.usage cpu mem)])
    | none => r.2
  else []

def procsTick (st : LoopSt) (env : TickEnv) : List (List Char) → List LoopEv
  | [] => []
  | p :: rest => procTick st p (env.procEnum p) ++ procsTick st env rest

/-- One iteration of `main_monitor_loop`'s `while True` body (procmon.py
lines 259-302): read the clock, rotate every sink if the hour bucket
changed (before any sample is taken), then the global sample, then each
configured process in order. -/
def tick (cfg : Config) (st : LoopSt) (env : TickEnv) : LoopSt × List LoopEv :=
  let ts := get_timestamp_str env.now
  let hour := dropLast2 ts
  let r1 :=
    if hour ≠ st.lastHour then
      let g := rebind st globalName
        (get_log_filename cfg.log_path cfg.template ts none)
      let pr := rotateProcs cfg ts g.1 cfg.procNames
      (LoopSt.mk hour pr.1.bound,
       g.2 ++ [LoopEv.write globalName Level.info Msg.rotMarker] ++ pr.2)
    else (st, [])
  let st1 := r1.1
  (st1, r1.2 ++ globalTick st1 env.sysSample ++ procsTick st1 env cfg.procNames)

def loopInit : LoopSt := ⟨[], []⟩

def runLoop (cfg : Config) : LoopSt → List TickEnv → LoopSt × List LoopEv
  | st, [] => (st, [])
  | st, env :: envs =>
    let r := tick cfg st env
    let rest := runLoop cfg r.1 envs
    (rest.1, r.2 ++ rest.2)

/-! ## Claim C4: the not-found record versus the PID list -/

theorem procStatsLoop_delta (pattern : List Char) :
    ∀ (procs : List ProcEntry) (c m : ℚ) (ps : List Nat),
      procStatsLoop pattern procs c m ps =
        (c + (procStatsLoop pattern procs 0 0 []).1,
         m + (procStatsLoop pattern procs 0 0 []).2.1,
         ps ++ (procStatsLoop pattern procs 0 0 []).2.2) := by
  intro procs
  induction procs with
  | nil => intro c m ps; simp [procStatsLoop]
  | cons pe rest ih =>
    intro c m ps
    cases pe with
    | raises =>
      show procStatsLoop pattern rest c m ps =
        (c + (procStatsLoop pattern rest 0 0 []).1, _, _)
      exact ih c m ps
    | ok info =>
      show (if nameMatches pattern info.name = true then _ else _) = _
      by_cases hm : nameMatches pattern info.name = true
      · rw [if_pos hm]
        show procStatsLoop pattern rest (c + info.cpu_percent.getD 0)
          (m + info.memory_percent.getD 0) (ps ++ [info.pid]) = _
        rw [ih (c + info.cpu_percent.getD 0) (m + info.memory_percent.getD 0)
          (ps ++ [info.pid])]
        have hrhs : procStatsLoop pattern (ProcEntry.ok info :: rest) 0 0 [] =
            procStatsLoop pattern rest (0 + info.cpu_percent.getD 0)
              (0 + info.memory_percent.getD 0) ([] ++ [info.pid]) := by
          show (if nameMatches pattern info.name = true then _ else _) = _
          rw [if_pos hm]
        rw [hrhs,
          ih (0 + info.cpu_percent.getD 0) (0 + info.memory_percent.getD 0)
            ([] ++ [info.pid])]
        simp only [Prod.mk.injEq]
        refine ⟨by ring, by ring, by simp⟩
      · rw [if_neg hm]
        have hrhs : procStatsLoop pattern (ProcEntry.ok info :: rest) 0 0 [] =
            procStatsLoop pattern rest 0 0 [] := by
          show (if nameMatches pattern info.name = true then _ else _) = _
          rw [if_neg hm]
        rw [hrhs]
        exact ih c m ps

theorem procStatsLoop_zero_of_pids_nil (pattern : List Char)
    (procs : List ProcEntry)
    (h : (procStatsLoop pattern procs 0 0 []).2.2 = []) :
    (procStatsLoop pattern procs 0 0 []).1 = 0 ∧
      (procStatsLoop pattern procs 0 0 []).2.1 = 0 := by
  induction procs with
  | nil => exact ⟨rfl, rfl⟩
  | cons pe rest ih =>
    cases pe with
    | raises => exact ih h
    | ok info =>
      by_cases hm : nameMatches pattern info.name = true
      · exfalso
        have hstep : procStatsLoop pattern (ProcEntry.ok info :: rest) 0 0 [] =
            procStatsLoop pattern rest (0 + info.cpu_percent.getD 0)
              (0 + info.memory_percent.getD 0) ([] ++ [info.pid]) := by
          show (if nameMatches pattern info.name = true then _ else _) = _
          rw [if_pos hm]
        rw [hstep, procStatsLoop_delta] at h
        simp at h
      · have hstep : procStatsLoop pattern (ProcEntry.ok info :: rest) 0 0 [] =
            procStatsLoop pattern rest 0 0 [] := by
          show (if nameMatches pattern info.name = true then _ else _) = _
          rw [if_neg hm]
        rw [hstep] at h ⊢
        exact ih h

theorem procStatsLoopPy_totals (pattern : List Char) :
    ∀ (procs : List ProcEntry) (c m : ℚ) (found : Bool) (ps : List Nat),
      (procStatsLoopPy pattern procs c m found).1 =
        (procStatsLoop pattern procs c m ps).1 ∧
      (procStatsLoopPy pattern procs c m found).2.1 =
        (procStatsLoop pattern procs c m ps).2.1 := by
  intro procs
  induction procs with
  | nil => intro c m found ps; exact ⟨rfl, rfl⟩
  | cons pe rest ih =>
    intro c m found ps
    cases pe with
    | raises => exact ih c m found ps
    | ok info =>
      by_cases hm : nameMatches pattern info.name = true
      · have hl : procStatsLoopPy pattern (ProcEntry.ok info :: rest) c m found =
            procStatsLoopPy pattern rest (c + info.cpu_percent.getD 0)
              (m + info.memory_percent.getD 0) true := by
          show (if nameMatches pattern info.name = true then _ else _) = _
          rw [if_pos hm]
        have hr : procStatsLoop pattern (ProcEntry.ok info :: rest) c m ps =
            procStatsLoop pattern rest (c + info.cpu_percent.getD 0)
              (m + info.memory_percent.getD 0) (ps ++ [info.pid]) := by
          show (if nameMatches pattern info.name = true then _ else _) = _
          rw [if_pos hm]
        rw [hl, hr]
        exact ih _ _ _ _
      · have hl : procStatsLoopPy pattern (ProcEntry.ok info :: rest) c m found =
            procStatsLoopPy pattern rest c m found := by
          show (if nameMatches pattern info.name = true then _ else _) = _
          rw [if_neg hm]
        have hr : procStatsLoop pattern (ProcEntry.ok info :: rest) c m ps =
            procStatsLoop pattern rest c m ps := by
          show (if nameMatches pattern info.name = true then _ else _) = _
          rw [if_neg hm]
        rw [hl, hr]
        exact ih _ _ _ _

theorem procStatsLoopPy_found_mono (pattern : List Char) :
    ∀ (procs : List ProcEntry) (c m : ℚ),
      (procStatsLoopPy pattern procs c m true).2.2 = true := by
  intro procs
  induction procs with
  | nil => intro c m; rfl
  | cons pe rest ih =>
    intro c m
    cases pe with
    | raises => exact ih c m
    | ok info =>
      by_cases hm : nameMatches pattern info.name = true <;>
        simp only [procStatsLoopPy, hm, if_pos, if_neg, if_true, if_false] <;>
        exact ih _ _

theorem procStatsLoopPy_found_pids (pattern : List Char) :
    ∀ (procs : List ProcEntry) (c m : ℚ),
      (procStatsLoopPy pattern procs c m false).2.2 = false ↔
        (procStatsLoop pattern procs 0 0 []).2.2 = [] := by
  intro procs
  induction procs with
  | nil => intro c m; simp [procStatsLoopPy, procStatsLoop]
  | cons pe rest ih =>
    intro c m
    cases pe with
    | raises => exact ih c m
    | ok info =>
      by_cases hm : nameMatches pattern info.name = true
      · have hl : (procStatsLoopPy pattern (ProcEntry.ok info :: rest) c m
            false).2.2 = true := by
          show ((if nameMatches pattern info.name = true then _ else _ :
            ℚ × ℚ × Bool)).2.2 = true
          rw [if_pos hm]
          exact procStatsLoopPy_found_mono pattern rest _ _
        have hr : (procStatsLoop pattern (ProcEntry.ok info :: rest)
            0 0 []).2.2 ≠ [] := by
          show ((if nameMatches pattern info.name = true then _ else _ :
            ℚ × ℚ × List Nat)).2.2 ≠ []
          rw [if_pos hm]
          show (procStatsLoop pattern rest (0 + info.cpu_percent.getD 0)
            (0 + info.memory_percent.getD 0) ([] ++ [info.pid])).2.2 ≠ []
          rw [procStatsLoop_delta]
          simp
        rw [hl]
        simp [hr]
      · have hl : procStatsLoopPy pattern (ProcEntry.ok info :: rest) c m
            false = procStatsLoopPy pattern rest c m false := by
          show (if nameMatches pattern info.name = true then _ else _) = _
          rw [if_neg hm]
        have hr : procStatsLoop pattern (ProcEntry.ok info :: rest) 0 0 [] =
            procStatsLoop pattern rest 0 0 [] := by
          show (if nameMatches pattern info.name = true then _ else _) = _
          rw [if_neg hm]
        rw [hl, hr]
        exact ih c m

/-- procmon.py's `get_process_stats` returns exactly the totals of the
procmon_utils version (the not-found branch returns `(0.0, 0.0)`, which
the totals already are in that case). -/
theorem py_eq_utils (pattern : List Char) (procs : List ProcEntry) :
    get_process_stats_py pattern (Enumeration.ok procs) =
      some ((procStatsLoop pattern procs 0 0 []).1,
            (procStatsLoop pattern procs 0 0 []).2.1) := by
  show (if (procStatsLoopPy pattern procs 0 0 false).2.2 = true then _ else _) = _
  by_cases hf : (procStatsLoopPy pattern procs 0 0 false).2.2 = true
  · rw [if_pos hf]
    obtain ⟨h1, h2⟩ := procStatsLoopPy_totals pattern procs 0 0 false []
    rw [h1, h2]
  · rw [if_neg hf]
    have hnil : (procStatsLoop pattern procs 0 0 []).2.2 = [] :=
      (procStatsLoopPy_found_pids pattern procs 0 0).mp
        (Bool.not_eq_true _ ▸ (by simpa using hf))
    obtain ⟨hz1, hz2⟩ := procStatsLoop_zero_of_pids_nil pattern procs hnil
    rw [hz1, hz2]

theorem rebind_no_write (st : LoopSt) (target path : List Char) :
    ∀ e ∈ (rebind st target path).2, ∀ t lvl m, e ≠ LoopEv.write t lvl m := by
  intro e he t lvl m
  unfold rebind at he
  split at he
  · rcases List.mem_cons.mp he with rfl|h2
    · intro hc; exact absurd hc (by simp)
    · rcases List.mem_cons.mp h2 with rfl|h3
      · intro hc; exact absurd hc (by simp)
      · exact absurd h3 (List.not_mem_nil _)
  · rcases List.mem_cons.mp he with rfl|h2
    · intro hc; exact absurd hc (by simp)
    · exact absurd h2 (List.not_mem_nil _)

theorem rotateProcs_no_notFound (cfg : Config) (ts : List Char) :
    ∀ (names : List (List Char)) (st : LoopSt) (p : List Char),
      LoopEv.write p Level.info (Msg.notFound p) ∉
        (rotateProcs cfg ts st names).2 := by
  intro names
  induction names with
  | nil => intro st p h; exact absurd h (List.not_mem_nil _)
  | cons q rest ih =>
    intro st p h
    show False
    rcases List.mem_append.mp h with h1|h2
    · rcases List.mem_append.mp h1 with h3|h4
      · exact rebind_no_write st q _ _ h3 p Level.info (Msg.notFound p) rfl
      · rcases List.mem_cons.mp h4 with heq|h5
        · exact absurd heq (by simp)
        · exact absurd h5 (List.not_mem_nil _)
    · exact ih _ p h2

theorem get_system_stats_py_err {st : LoopSt} (u : Unit)
    (hb : globalName ∈ st.bound) :
    get_system_stats_py st (Except.error u) =
      (none, [LoopEv.write globalName Level.error Msg.errGlobal]) := by
  unfold get_system_stats_py
  rw [if_pos hb]

theorem globalTick_ok (st : LoopSt) (cpu mem : ℚ)
    (hb : globalName ∈ st.bound) :
    globalTick st (Except.ok (cpu, mem)) =
      [LoopEv.write globalName Level.info (Msg.usage cpu mem)] := by
  unfold globalTick
  rw [if_pos hb]
  rfl

theorem globalTick_err (st : LoopSt) (u : Unit) (hb : globalName ∈ st.bound) :
    globalTick st (Except.error u) =
      [LoopEv.write globalName Level.error Msg.errGlobal] := by
  unfold globalTick
  rw [if_pos hb, get_system_stats_py_err u hb]

theorem globalTick_no_notFound (st : LoopSt) (sample : Except Unit (ℚ × ℚ))
    (p : List Char) :
    LoopEv.write p Level.info (Msg.notFound p) ∉ globalTick st sample := by
  intro h
  by_cases hb : globalName ∈ st.bound
  · cases sample with
    | ok v =>
      obtain ⟨cpu, mem⟩ := v
      rw [globalTick_ok st cpu mem hb] at h
      rcases List.mem_cons.mp h with heq|h2
      · exact absurd heq (by simp)
      · exact absurd h2 (List.not_mem_nil _)
    | error u =>
      rw [globalTick_err st u hb] at h
      rcases List.mem_cons.mp h with heq|h2
      · exact absurd heq (by simp)
      · exact absurd h2 (List.not_mem_nil _)
  · unfold globalTick at h
    rw [if_neg hb] at h
    exact absurd h (List.not_mem_nil _)

theorem procsTick_mem {st : LoopSt} {env : TickEnv} {e : LoopEv} :
    ∀ {names : List (List Char)},
      e ∈ procsTick st env names ↔
        ∃ q ∈ names, e ∈ procTick st q (env.procEnum q) := by
  intro names
  induction names with
  | nil => simp [procsTick]
  | cons q rest ih =>
    show e ∈ procTick st q (env.procEnum q) ++ procsTick st env rest ↔ _
    rw [List.mem_append, ih]
    constructor
    · rintro (h|⟨r, hr, hmem⟩)
      · exact ⟨q, List.mem_cons_self _ _, h⟩
      · exact ⟨r, List.mem_cons_of_mem _ hr, hmem⟩
    · rintro ⟨r, hr, hmem⟩
      rcases List.mem_cons.mp hr with rfl|hr2
      · exact Or.inl hmem
      · exact Or.inr ⟨r, hr2, hmem⟩

theorem procTick_notFound_iff (st : LoopSt) (q p : List Char) (e : Enumeration) :
    (LoopEv.write p Level.info (Msg.notFound p) ∈ procTick st q e) ↔
      (q = p ∧ p ∈ st.bound ∧ ∃ procs, e = Enumeration.ok procs ∧
        (procStatsLoop p procs 0 0 []).1 = 0 ∧
        (procStatsLoop p procs 0 0 []).2.1 = 0) := by
  unfold procTick
  by_cases hb : q ∈ st.bound
  · rw [if_pos hb]
    cases e with
    | fail =>
      have hev : get_process_stats_ev st q Enumeration.fail =
          (none,
           if q ∈ st.bound then [LoopEv.write q Level.error (Msg.errProc q)]
           else if globalName ∈ st.bound then
             [LoopEv.write globalName Level.error (Msg.errProc q)]
           else [LoopEv.stderrLog]) := rfl
      rw [hev]
      show LoopEv.write p Level.info (Msg.notFound p) ∈
        (if q ∈ st.bound then [LoopEv.write q Level.error (Msg.errProc q)]
         else if globalName ∈ st.bound then
           [LoopEv.write globalName Level.error (Msg.errProc q)]
         else [LoopEv.stderrLog]) ↔ _
      rw [if_pos hb]
      constructor
      · intro h
        rcases List.mem_cons.mp h with heq|h2
        · exact absurd heq (by simp)
        · exact absurd h2 (List.not_mem_nil _)
      · rintro ⟨_, _, procs, hpe, _⟩
        exact absurd hpe (by simp)
    | ok procs =>
      have hev : get_process_stats_ev st q (Enumeration.ok procs) =
          (some ((procStatsLoop q procs 0 0 []).1,
            (procStatsLoop q procs 0 0 []).2.1), []) := by
        unfold get_process_stats_ev
        rw [py_eq_utils]
      rw [hev]
      show LoopEv.write p Level.info (Msg.notFound p) ∈
        (([] : List LoopEv) ++ (if (procStatsLoop q procs 0 0 []).1 = 0 ∧
          (procStatsLoop q procs 0 0 []).2.1 = 0 then
            [LoopEv.write q Level.info (Msg.notFound q)]
          else [LoopEv.write q Level.info (Msg.usage
            (procStatsLoop q procs 0 0 []).1
            (procStatsLoop q procs 0 0 []).2.1)])) ↔ _
      rw [List.nil_append]
      by_cases hz : (procStatsLoop q procs 0 0 []).1 = 0 ∧
          (procStatsLoop q procs 0 0 []).2.1 = 0
      · rw [if_pos hz]
        constructor
        · intro h
          rcases List.mem_cons.mp h with heq|h2
          · have hqp : q = p := by
              injection heq with a b c
              exact a.symm
            subst hqp
            exact ⟨rfl, hb, procs, rfl, hz⟩
          · exact absurd h2 (List.not_mem_nil _)
        · rintro ⟨rfl, _, procs2, hpe, _⟩
          obtain rfl : procs2 = procs := by injection hpe with hh; exact hh.symm
          exact List.mem_cons_self _ _
      · rw [if_neg hz]
        constructor
        · intro h
          rcases List.mem_cons.mp h with heq|h2
          · exact absurd heq (by simp)
          · exact absurd h2 (List.not_mem_nil _)
        · rintro ⟨rfl, _, procs2, hpe, hz1, hz2⟩
          obtain rfl : procs2 = procs := by injection hpe with hh; exact hh.symm
          exact absurd ⟨hz1, hz2⟩ hz
  · rw [if_neg hb]
    constructor
    · intro h
      exact absurd h (List.not_mem_nil _)
    · rintro ⟨rfl, hpb, _⟩
      exact absurd hpb hb

theorem procTick_ok (st : LoopSt) (p : List Char) (procs : List ProcEntry)
    (hb : p ∈ st.bound) :
    procTick st p (Enumeration.ok procs) =
      (if (procStatsLoop p procs 0 0 []).1 = 0 ∧
          (procStatsLoop p procs 0 0 []).2.1 = 0 then
        [LoopEv.write p Level.info (Msg.notFound p)]
      else [LoopEv.write p Level.info (Msg.usage
        (procStatsLoop p procs 0 0 []).1 (procStatsLoop p procs 0 0 []).2.1)]) := by
  unfold procTick
  rw [if_pos hb]
  have hev : get_process_stats_ev st p (Enumeration.ok procs) =
      (some ((procStatsLoop p procs 0 0 []).1,
        (procStatsLoop p procs 0 0 []).2.1), []) := by
    unfold get_process_stats_ev
    rw [py_eq_utils]
  rw [hev]
  exact List.nil_append _

theorem tick_events_split (cfg : Config) (st : LoopSt) (env : TickEnv) :
    ∃ rot st1, tick cfg st env =
      (st1, rot ++ globalTick st1 env.sysSample ++
        procsTick st1 env cfg.procNames) ∧
      (∀ p, LoopEv.write p Level.info (Msg.notFound p) ∉ rot) := by
  by_cases hch : dropLast2 (get_timestamp_str env.now) ≠ st.lastHour
  · refine ⟨(rebind st globalName (get_log_filename cfg.log_path cfg.template
        (get_timestamp_str env.now) none)).2 ++
      [LoopEv.write globalName Level.info Msg.rotMarker] ++
      (rotateProcs cfg (get_timestamp_str env.now)
        (rebind st globalName (get_log_filename cfg.log_path cfg.template
          (get_timestamp_str env.now) none)).1 cfg.procNames).2,
      LoopSt.mk (dropLast2 (get_timestamp_str env.now))
        (rotateProcs cfg (get_timestamp_str env.now)
          (rebind st globalName (get_log_filename cfg.log_path cfg.template
            (get_timestamp_str env.now) none)).1 cfg.procNames).1.bound,
      ?_, ?_⟩
    · simp only [tick]
      rw [if_pos hch]
    · intro p hmem
      rcases List.mem_append.mp hmem with h1|h2
      · rcases List.mem_append.mp h1 with h3|h4
        · exact rebind_no_write st globalName _ _ h3 p Level.info
            (Msg.notFound p) rfl
        · rcases List.mem_cons.mp h4 with heq|h5
          · exact absurd heq (by simp)
          · exact absurd h5 (List.not_mem_nil _)
      · exact rotateProcs_no_notFound cfg _ cfg.procNames _ p h2
  · refine ⟨[], st, ?_, fun p h => absurd h (List.not_mem_nil _)⟩
    simp only [tick]
    rw [if_neg hch]

/-- Claim C4, counterexample to the claim as stated: with one bound
target `notepad` and a live matching process whose psutil percentages
are `None`, the tick emits the informational not-found record even
though the sampled PID list `[7]` is non-empty — the loop decides by
`proc_cpu == 0.0 and proc_mem == 0.0` (procmon.py line 291), not by the
PID list, and its record carries no PID list. -/
theorem claim_C4_counterexample :
    (tick
      ⟨"logs".toList, "PROCESSMONITOR_%DATAHORA%.log".toList,
        ["notepad".toList], 10, RankBy.cpu⟩
      ⟨"2025050410".toList, [globalName, "notepad".toList]⟩
      ⟨⟨2025,5,4,10,3,0⟩, Except.ok (1, 2),
        fun _ => Enumeration.ok
          [ProcEntry.ok ⟨7, some "notepad".toList, none, none⟩],
        CoreQuery.fail, Enumeration.fail⟩).2 =
      [LoopEv.write globalName Level.info (Msg.usage 1 2),
       LoopEv.write "notepad".toList Level.info
         (Msg.notFound "notepad".toList)] ∧
    get_process_stats "notepad".toList (Enumeration.ok
      [ProcEntry.ok ⟨7, some "notepad".toList, none, none⟩]) =
      Except.ok (0, 0, [7]) := by
  have hloop : procStatsLoop "notepad".toList
      [ProcEntry.ok ⟨7, some "notepad".toList, none, none⟩] 0 0 [] =
      (0, 0, [7]) := by
    show (if nameMatches "notepad".toList (some "notepad".toList) = true
      then _ else _) = _
    rw [if_pos (by decide)]
    show procStatsLoop _ [] (0 + Option.getD none 0) (0 + Option.getD none 0)
      ([] ++ [7]) = _
    simp only [procStatsLoop, Option.getD, Prod.mk.injEq]
    norm_num
  constructor
  · simp only [tick]
    rw [if_neg (by decide :
      ¬ dropLast2 (get_timestamp_str ⟨2025,5,4,10,3,0⟩) ≠ "2025050410".toList)]
    rw [List.nil_append]
    rw [globalTick_ok _ _ _ (by decide)]
    show _ ++ (procTick _ "notepad".toList (Enumeration.ok _) ++ []) = _
    rw [procTick_ok _ _ _ (by decide), hloop]
    rw [if_pos (by norm_num)]
    rfl
  · show Except.ok (procStatsLoop "notepad".toList
      [ProcEntry.ok ⟨7, some "notepad".toList, none, none⟩] 0 0 []) = _
    rw [hloop]

/-- Claim C4 (amended): for every configured named process whose sink is
bound, on every tick the loop emits the informational not-found record
exactly when the aggregated CPU and memory totals are both `0.0` — in
particular whenever the sampled PID list is empty — and otherwise emits
an INFO record carrying the aggregated percentages (the record does not
carry the PID list). -/
theorem claim_C4_amended (cfg : Config) (st : LoopSt) (env : TickEnv)
    (p : List Char) (hp : p ∈ cfg.procNames) (procs : List ProcEntry)
    (henum : env.procEnum p = Enumeration.ok procs)
    (hbound : p ∈ (tick cfg st env).1.bound) :
    ((LoopEv.write p Level.info (Msg.notFound p) ∈ (tick cfg st env).2) ↔
      ((procStatsLoop p procs 0 0 []).1 = 0 ∧
        (procStatsLoop p procs 0 0 []).2.1 = 0)) ∧
    (¬ ((procStatsLoop p procs 0 0 []).1 = 0 ∧
        (procStatsLoop p procs 0 0 []).2.1 = 0) →
      LoopEv.write p Level.info (Msg.usage (procStatsLoop p procs 0 0 []).1
        (procStatsLoop p procs 0 0 []).2.1) ∈ (tick cfg st env).2) ∧
    ((procStatsLoop p procs 0 0 []).2.2 = [] →
      (procStatsLoop p procs 0 0 []).1 = 0 ∧
        (procStatsLoop p procs 0 0 []).2.1 = 0) := by
  obtain ⟨rot, st1, heq, hrot⟩ := tick_events_split cfg st env
  have hb1 : p ∈ st1.bound := by
    have := congrArg Prod.fst heq
    rw [this] at hbound
    exact hbound
  have hevs : (tick cfg st env).2 = rot ++ globalTick st1 env.sysSample ++
      procsTick st1 env cfg.procNames := congrArg Prod.snd heq
  rw [hevs]
  refine ⟨?_, ?_, procStatsLoop_zero_of_pids_nil p procs⟩
  · constructor
    · intro h
      rcases List.mem_append.mp h with h1|h2
      · rcases List.mem_append.mp h1 with h3|h4
        · exact absurd h3 (hrot p)
        · exact absurd h4 (globalTick_no_notFound st1 env.sysSample p)
      · obtain ⟨q, hq, hmem⟩ := procsTick_mem.mp h2
        obtain ⟨rfl, _, procs2, hpe, hz⟩ :=
          (procTick_notFound_iff st1 q p (env.procEnum q)).mp hmem
        rw [henum] at hpe
        obtain rfl : procs2 = procs := by injection hpe with hh; exact hh.symm
        exact hz
    · intro hz
      refine List.mem_append.mpr (Or.inr (procsTick_mem.mpr ⟨p, hp, ?_⟩))
      exact (procTick_notFound_iff st1 p p (env.procEnum p)).mpr
        ⟨rfl, hb1, procs, henum, hz⟩
  · intro hnz
    refine List.mem_append.mpr (Or.inr (procsTick_mem.mpr ⟨p, hp, ?_⟩))
    rw [henum, procTick_ok st1 p procs hb1, if_neg hnz]
    exact List.mem_cons_self _ _

/-- Witness for `claim_C4_amended` at a concrete bound target and
process table. -/
theorem claim_C4_witness :
    ((LoopEv.write "notepad".toList Level.info
        (Msg.notFound "notepad".toList) ∈
      (tick
        ⟨"logs".toList, "PROCESSMONITOR_%DATAHORA%.log".toList,
          ["notepad".toList], 10, RankBy.cpu⟩
        ⟨"2025050410".toList, [globalName, "notepad".toList]⟩
        ⟨⟨2025,5,4,10,3,0⟩, Except.ok (1, 2),
          fun _ => Enumeration.ok
            [ProcEntry.ok ⟨7, some "notepad".toList, none, none⟩],
          CoreQuery.fail, Enumeration.fail⟩).2) ↔
      ((procStatsLoop "notepad".toList
          [ProcEntry.ok ⟨7, some "notepad".toList, none, none⟩] 0 0 []).1 = 0 ∧
        (procStatsLoop "notepad".toList
          [ProcEntry.ok ⟨7, some "notepad".toList, none, none⟩]
            0 0 []).2.1 = 0)) :=
  (claim_C4_amended
    ⟨"logs".toList, "PROCESSMONITOR_%DATAHORA%.log".toList,
      ["notepad".toList], 10, RankBy.cpu⟩
    ⟨"2025050410".toList, [globalName, "notepad".toList]⟩
    ⟨⟨2025,5,4,10,3,0⟩, Except.ok (1, 2),
      fun _ => Enumeration.ok
        [ProcEntry.ok ⟨7, some "notepad".toList, none, none⟩],
      CoreQuery.fail, Enumeration.fail⟩
    "notepad".toList (by decide)
    [ProcEntry.ok ⟨7, some "notepad".toList, none, none⟩]
    rfl (by decide)).1

/-! ## Claim C9: collection errors never kill the loop -/

theorem procTick_fail (st : LoopSt) (p : List Char) (hb : p ∈ st.bound) :
    procTick st p Enumeration.fail =
      [LoopEv.write p Level.error (Msg.errProc p)] := by
  unfold procTick
  rw [if_pos hb]
  have hev : get_process_stats_ev st p Enumeration.fail =
      (none, if p ∈ st.bound then [LoopEv.write p Level.error (Msg.errProc p)]
        else if globalName ∈ st.bound then
          [LoopEv.write globalName Level.error (Msg.errProc p)]
        else [LoopEv.stderrLog]) := rfl
  rw [hev]
  show (if p ∈ st.bound then [LoopEv.write p Level.error (Msg.errProc p)]
    else if globalName ∈ st.bound then
      [LoopEv.write globalName Level.error (Msg.errProc p)]
    else [LoopEv.stderrLog]) = _
  rw [if_pos hb]

theorem tick_fst (cfg : Config) (st : LoopSt) (env : TickEnv) :
    (tick cfg st env).1 =
      if dropLast2 (get_timestamp_str env.now) ≠ st.lastHour then
        LoopSt.mk (dropLast2 (get_timestamp_str env.now))
          (rotateProcs cfg (get_timestamp_str env.now)
            (rebind st globalName (get_log_filename cfg.log_path cfg.template
              (get_timestamp_str env.now) none)).1 cfg.procNames).1.bound
      else st := by
  by_cases hch : dropLast2 (get_timestamp_str env.now) ≠ st.lastHour
  · simp only [tick]
    rw [if_pos hch, if_pos hch]
  · simp only [tick]
    rw [if_neg hch, if_neg hch]

/-- Claim C9: every per-target collection error occurring during a tick
is caught and logged at ERROR level to that target's sink, and the loop
continues — the next state depends only on the wall clock (never on
sample outcomes), each target's events depend only on its own sample,
and the run as a whole progresses identically whatever the collection
failures are.  (The stderr fallback inside the samplers is unreachable
from the loop because each sampling call is guarded by the sink being
bound.) -/
theorem claim_C9 (cfg : Config) :
    (∀ st env env', env.now = env'.now →
      (tick cfg st env).1 = (tick cfg st env').1) ∧
    (∀ st env (u : Unit), env.sysSample = Except.error u →
      globalName ∈ (tick cfg st env).1.bound →
      LoopEv.write globalName Level.error Msg.errGlobal ∈
        (tick cfg st env).2) ∧
    (∀ st env p, p ∈ cfg.procNames → env.procEnum p = Enumeration.fail →
      p ∈ (tick cfg st env).1.bound →
      LoopEv.write p Level.error (Msg.errProc p) ∈ (tick cfg st env).2) ∧
    (∀ st env env' (names : List (List Char)),
      (∀ q ∈ names, env.procEnum q = env'.procEnum q) →
      procsTick st env names = procsTick st env' names) ∧
    (∀ st envs envs',
      List.Forall₂ (fun e e' : TickEnv => e.now = e'.now) envs envs' →
      (runLoop cfg st envs).1 = (runLoop cfg st envs').1) := by
  have hfst : ∀ st (env env' : TickEnv), env.now = env'.now →
      (tick cfg st env).1 = (tick cfg st env').1 := by
    intro st env env' hnow
    rw [tick_fst, tick_fst, hnow]
  refine ⟨hfst, ?_, ?_, ?_, ?_⟩
  · intro st env u herr hb
    obtain ⟨rot, st1, heq, _⟩ := tick_events_split cfg st env
    have hb1 : globalName ∈ st1.bound := by
      have h1 := congrArg Prod.fst heq
      rw [h1] at hb
      exact hb
    have hevs := congrArg Prod.snd heq
    rw [hevs]
    refine List.mem_append.mpr (Or.inl (List.mem_append.mpr (Or.inr ?_)))
    rw [herr, globalTick_err st1 u hb1]
    exact List.mem_cons_self _ _
  · intro st env p hp hfail hb
    obtain ⟨rot, st1, heq, _⟩ := tick_events_split cfg st env
    have hb1 : p ∈ st1.bound := by
      have h1 := congrArg Prod.fst heq
      rw [h1] at hb
      exact hb
    have hevs := congrArg Prod.snd heq
    rw [hevs]
    refine List.mem_append.mpr (Or.inr (procsTick_mem.mpr ⟨p, hp, ?_⟩))
    rw [hfail, procTick_fail st1 p hb1]
    exact List.mem_cons_self _ _
  · intro st env env' names hsame
    induction names with
    | nil => rfl
    | cons q rest ih =>
      show procTick st q (env.procEnum q) ++ _ =
        procTick st q (env'.procEnum q) ++ _
      rw [hsame q (List.mem_cons_self _ _),
        ih (fun r hr => hsame r (List.mem_cons_of_mem _ hr))]
  · intro st envs envs' hrel
    induction hrel generalizing st with
    | nil => rfl
    | cons hnow _ ih =>
      show (runLoop cfg (tick cfg st _).1 _).1 = (runLoop cfg (tick cfg st _).1 _).1
      rw [hfst st _ _ hnow]
      exact ih _

def cfgC9 : Config :=
  ⟨"/tmp".toList, "PM_%DATAHORA%.log".toList, ["notepad".toList], 5, RankBy.cpu⟩

def stC9 : LoopSt := ⟨"2025050410".toList, [globalName, "notepad".toList]⟩

def envC9 : TickEnv :=
  ⟨⟨2025, 5, 4, 10, 3, 0⟩, Except.error (), fun _ => Enumeration.fail,
   CoreQuery.fail, Enumeration.fail⟩

theorem claim_C9_witness :
    (envC9.sysSample = Except.error () ∧
      globalName ∈ (tick cfgC9 stC9 envC9).1.bound ∧
      LoopEv.write globalName Level.error Msg.errGlobal ∈
        (tick cfgC9 stC9 envC9).2) ∧
    ("notepad".toList ∈ cfgC9.procNames ∧
      envC9.procEnum "notepad".toList = Enumeration.fail ∧
      "notepad".toList ∈ (tick cfgC9 stC9 envC9).1.bound ∧
      LoopEv.write "notepad".toList Level.error (Msg.errProc "notepad".toList) ∈
        (tick cfgC9 stC9 envC9).2) :=
  ⟨⟨rfl, by decide,
    (claim_C9 cfgC9).2.1 stC9 envC9 () rfl (by decide)⟩,
   ⟨by decide, rfl, by decide,
    (claim_C9 cfgC9).2.2.1 stC9 envC9 "notepad".toList (by decide) rfl
      (by decide)⟩⟩

/-! ## Claim C8: rotation precedes every sample write

`wellOpened opened evs` checks that every `write` event in `evs` targets
a sink opened earlier (in `evs` itself or in the ambient `opened` set):
the event-trace form of "no sample write ever precedes a binding". -/

def openedAfter : List (List Char) → List LoopEv → List (List Char)
  | opened, [] => opened
  | opened, LoopEv.openSink t _ :: rest => openedAfter (t :: opened) rest
  | opened, _ :: rest => openedAfter opened rest

def wellOpened : List (List Char) → List LoopEv → Bool
  | _, [] => true
  | opened, LoopEv.write t _ _ :: rest =>
    decide (t ∈ opened) && wellOpened opened rest
  | opened, LoopEv.openSink t _ :: rest => wellOpened (t :: opened) rest
  | opened, LoopEv.closeSink _ :: rest => wellOpened opened rest
  | opened, LoopEv.stderrLog :: rest => wellOpened opened rest

theorem openedAfter_append (opened : List (List Char)) (a b : List LoopEv) :
    openedAfter opened (a ++ b) = openedAfter (openedAfter opened a) b := by
  induction a generalizing opened with
  | nil => rfl
  | cons e rest ih => cases e <;> simp [openedAfter, ih]

theorem wellOpened_append (opened : List (List Char)) (a b : List LoopEv) :
    wellOpened opened (a ++ b) =
      (wellOpened opened a && wellOpened (openedAfter opened a) b) := by
  induction a generalizing opened with
  | nil => simp [wellOpened, openedAfter]
  | cons e rest ih =>
    cases e <;> simp [wellOpened, openedAfter, ih, Bool.and_assoc]

theorem subset_openedAfter (opened : List (List Char)) (l : List LoopEv) :
    opened ⊆ openedAfter opened l := by
  induction l generalizing opened with
  | nil => exact fun x h => h
  | cons e rest ih =>
    cases e with
    | openSink t p =>
      exact fun x h => ih (t :: opened) (List.mem_cons_of_mem _ h)
    | closeSink t => exact ih opened
    | write t lvl m => exact ih opened
    | stderrLog => exact ih opened

theorem wellOpened_of_writes (opened : List (List Char)) (l : List LoopEv)
    (h : ∀ e ∈ l, ∀ t lvl m, e = LoopEv.write t lvl m → t ∈ opened) :
    wellOpened opened l = true := by
  induction l generalizing opened with
  | nil => rfl
  | cons e rest ih =>
    cases e with
    | openSink t p =>
      show wellOpened (t :: opened) rest = true
      refine ih (t :: opened) ?_
      intro e he t' lvl m hw
      exact List.mem_cons_of_mem _
        (h e (List.mem_cons_of_mem _ he) t' lvl m hw)
    | closeSink t =>
      exact ih opened (fun e he => h e (List.mem_cons_of_mem _ he))
    | stderrLog =>
      exact ih opened (fun e he => h e (List.mem_cons_of_mem _ he))
    | write t lvl m =>
      show (decide (t ∈ opened) && wellOpened opened rest) = true
      rw [Bool.and_eq_true, decide_eq_true_eq]
      exact ⟨h _ (List.mem_cons_self _ _) t lvl m rfl,
        ih opened (fun e he => h e (List.mem_cons_of_mem _ he))⟩

theorem rebind_bound_mono (st : LoopSt) (t p : List Char) :
    st.bound ⊆ (rebind st t p).1.bound := by
  unfold rebind
  by_cases hb : t ∈ st.bound
  · rw [if_pos hb]; exact fun x h => h
  · rw [if_neg hb]; exact List.subset_append_left _ _

theorem rebind_self_bound (st : LoopSt) (t p : List Char) :
    t ∈ (rebind st t p).1.bound := by
  unfold rebind
  by_cases hb : t ∈ st.bound
  · rw [if_pos hb]; exact hb
  · rw [if_neg hb]
    exact List.mem_append.mpr (Or.inr (List.mem_cons_self _ _))

theorem rebind_ev_class (st : LoopSt) (t p : List Char) :
    ∀ e ∈ (rebind st t p).2,
      e = LoopEv.closeSink t ∨ e = LoopEv.openSink t p := by
  unfold rebind
  by_cases hb : t ∈ st.bound
  · rw [if_pos hb]
    intro e he
    rcases List.mem_cons.mp he with rfl|h2
    · exact Or.inl rfl
    · rcases List.mem_cons.mp h2 with rfl|h3
      · exact Or.inr rfl
      · exact absurd h3 (List.not_mem_nil _)
  · rw [if_neg hb]
    intro e he
    rcases List.mem_cons.mp he with rfl|h2
    · exact Or.inr rfl
    · exact absurd h2 (List.not_mem_nil _)

theorem rebind_open_mem (st : LoopSt) (t p : List Char) :
    LoopEv.openSink t p ∈ (rebind st t p).2 := by
  unfold rebind
  by_cases hb : t ∈ st.bound
  · rw [if_pos hb]
    exact List.mem_cons_of_mem _ (List.mem_cons_self _ _)
  · rw [if_neg hb]; exact List.mem_cons_self _ _

theorem rebind_close_open (st : LoopSt) (t p : List Char) (hb : t ∈ st.bound) :
    (rebind st t p).2 = [LoopEv.closeSink t, LoopEv.openSink t p] := by
  unfold rebind
  rw [if_pos hb]

theorem rebind_wellOpened (st : LoopSt) (t p : List Char)
    (opened : List (List Char)) (hsub : st.bound ⊆ opened) :
    wellOpened opened (rebind st t p).2 = true ∧
    (rebind st t p).1.bound ⊆ openedAfter opened (rebind st t p).2 := by
  unfold rebind
  by_cases hb : t ∈ st.bound
  · rw [if_pos hb]
    refine ⟨rfl, ?_⟩
    show st.bound ⊆ t :: opened
    exact List.subset_cons_of_subset _ hsub
  · rw [if_neg hb]
    refine ⟨rfl, ?_⟩
    show st.bound ++ [t] ⊆ t :: opened
    refine List.append_subset.mpr ⟨List.subset_cons_of_subset _ hsub, ?_⟩
    intro x hx
    rw [List.mem_singleton.mp hx]
    exact List.mem_cons_self _ _

theorem rotateProcs_bound_mono (cfg : Config) (ts : List Char) :
    ∀ (names : List (List Char)) (st : LoopSt),
      st.bound ⊆ (rotateProcs cfg ts st names).1.bound := by
  intro names
  induction names with
  | nil => exact fun st x h => h
  | cons p rest ih =>
    intro st
    exact (rebind_bound_mono st p _).trans (ih _)

theorem rotateProcs_ev_class (cfg : Config) (ts : List Char) :
    ∀ (names : List (List Char)) (st : LoopSt), ∀ e ∈ (rotateProcs cfg ts st names).2,
      (∃ p, p ∈ names ∧ (e = LoopEv.closeSink p ∨
        e = LoopEv.openSink p (get_log_filename cfg.log_path cfg.template ts (some p)) ∨
        e = LoopEv.write p Level.info Msg.rotMarker)) := by
  intro names
  induction names with
  | nil => intro st e he; exact absurd he (List.not_mem_nil _)
  | cons p rest ih =>
    intro st e he
    have he2 : e ∈ ((rebind st p (get_log_filename cfg.log_path cfg.template ts (some p))).2 ++
        [LoopEv.write p Level.info Msg.rotMarker]) ++
        (rotateProcs cfg ts (rebind st p (get_log_filename cfg.log_path cfg.template ts (some p))).1 rest).2 := he
    rcases List.mem_append.mp he2 with h1|h2
    · rcases List.mem_append.mp h1 with h3|h4
      · rcases rebind_ev_class _ _ _ e h3 with h|h
        · exact ⟨p, List.mem_cons_self _ _, Or.inl h⟩
        · exact ⟨p, List.mem_cons_self _ _, Or.inr (Or.inl h)⟩
      · rw [List.mem_singleton.mp h4]
        exact ⟨p, List.mem_cons_self _ _, Or.inr (Or.inr rfl)⟩
    · obtain ⟨q, hq, hcls⟩ := ih _ e h2
      exact ⟨q, List.mem_cons_of_mem _ hq, hcls⟩

theorem rotateProcs_open_mem (cfg : Config) (ts : List Char) :
    ∀ (names : List (List Char)) (st : LoopSt) (p : List Char), p ∈ names →
      LoopEv.openSink p (get_log_filename cfg.log_path cfg.template ts (some p)) ∈
        (rotateProcs cfg ts st names).2 := by
  intro names
  induction names with
  | nil => intro st p hp; exact absurd hp (List.not_mem_nil _)
  | cons q rest ih =>
    intro st p hp
    show _ ∈ ((rebind st q _).2 ++ [_]) ++ (rotateProcs cfg ts _ rest).2
    rcases List.mem_cons.mp hp with rfl|h2
    · exact List.mem_append.mpr (Or.inl (List.mem_append.mpr
        (Or.inl (rebind_open_mem _ _ _))))
    · exact List.mem_append.mpr (Or.inr (ih _ p h2))

theorem rotateProcs_close_sub (cfg : Config) (ts : List Char) :
    ∀ (names : List (List Char)) (st : LoopSt) (p : List Char),
      p ∈ names → p ∈ st.bound →
      List.Sublist
        [LoopEv.closeSink p, LoopEv.openSink p
          (get_log_filename cfg.log_path cfg.template ts (some p))]
        (rotateProcs cfg ts st names).2 := by
  intro names
  induction names with
  | nil => intro st p hp; exact absurd hp (List.not_mem_nil _)
  | cons q rest ih =>
    intro st p hp hb
    show List.Sublist _ (((rebind st q _).2 ++ [_]) ++ (rotateProcs cfg ts _ rest).2)
    rcases List.mem_cons.mp hp with rfl|h2
    · rw [rebind_close_open st p _ hb]
      exact ((List.sublist_append_left _ _).trans
        (List.sublist_append_left _ _))
    · have hb2 : p ∈ (rebind st q (get_log_filename cfg.log_path cfg.template ts (some q))).1.bound :=
        rebind_bound_mono st q _ hb
      exact (ih _ p h2 hb2).trans (List.sublist_append_right _ _)

theorem rotateProcs_wellOpened (cfg : Config) (ts : List Char) :
    ∀ (names : List (List Char)) (st : LoopSt) (opened : List (List Char)),
      st.bound ⊆ opened →
      wellOpened opened (rotateProcs cfg ts st names).2 = true ∧
      (rotateProcs cfg ts st names).1.bound ⊆
        openedAfter opened (rotateProcs cfg ts st names).2 := by
  intro names
  induction names with
  | nil => intro st opened hsub; exact ⟨rfl, hsub⟩
  | cons p rest ih =>
    intro st opened hsub
    obtain ⟨h1, h2⟩ := rebind_wellOpened st p
      (get_log_filename cfg.log_path cfg.template ts (some p)) opened hsub
    have hp1 : p ∈ openedAfter opened
        (rebind st p (get_log_filename cfg.log_path cfg.template ts (some p))).2 :=
      h2 (rebind_self_bound st p _)
    obtain ⟨h3, h4⟩ := ih
      (rebind st p (get_log_filename cfg.log_path cfg.template ts (some p))).1
      (openedAfter opened
        (rebind st p (get_log_filename cfg.log_path cfg.template ts (some p))).2) h2
    constructor
    · show wellOpened opened
        (((rebind st p _).2 ++ [LoopEv.write p Level.info Msg.rotMarker]) ++
          (rotateProcs cfg ts _ rest).2) = true
      rw [wellOpened_append, wellOpened_append, openedAfter_append]
      have hm : wellOpened (openedAfter opened (rebind st p
          (get_log_filename cfg.log_path cfg.template ts (some p))).2)
          [LoopEv.write p Level.info Msg.rotMarker] = true := by
        show (decide (p ∈ _) && true) = true
        rw [Bool.and_eq_true, decide_eq_true_eq]
        exact ⟨hp1, rfl⟩
      have hoa : openedAfter (openedAfter opened (rebind st p
          (get_log_filename cfg.log_path cfg.template ts (some p))).2)
          [LoopEv.write p Level.info Msg.rotMarker] =
          openedAfter opened (rebind st p
            (get_log_filename cfg.log_path cfg.template ts (some p))).2 := rfl
      rw [h1, hm, hoa, h3]
      rfl
    · show (rotateProcs cfg ts _ rest).1.bound ⊆ openedAfter opened
        (((rebind st p _).2 ++ [LoopEv.write p Level.info Msg.rotMarker]) ++
          (rotateProcs cfg ts _ rest).2)
      rw [openedAfter_append, openedAfter_append]
      exact h4

theorem globalTick_write_bound (st : LoopSt) (s : Except Unit (ℚ × ℚ)) :
    ∀ e ∈ globalTick st s, ∀ t lvl m, e = LoopEv.write t lvl m →
      t ∈ st.bound := by
  intro e he t lvl m hw
  by_cases hb : globalName ∈ st.bound
  · cases s with
    | ok v =>
      obtain ⟨cpu, mem⟩ := v
      rw [globalTick_ok st cpu mem hb] at he
      rw [List.mem_singleton.mp he] at hw
      injection hw with h1 h2 h3
      rw [← h1]
      exact hb
    | error u =>
      rw [globalTick_err st u hb] at he
      rw [List.mem_singleton.mp he] at hw
      injection hw with h1 h2 h3
      rw [← h1]
      exact hb
  · unfold globalTick at he
    rw [if_neg hb] at he
    exact absurd he (List.not_mem_nil _)

theorem procTick_write_bound (st : LoopSt) (p : List Char) (en : Enumeration) :
    ∀ e ∈ procTick st p en, ∀ t lvl m, e = LoopEv.write t lvl m →
      t ∈ st.bound := by
  intro e he t lvl m hw
  by_cases hb : p ∈ st.bound
  · cases en with
    | ok procs =>
      rw [procTick_ok st p procs hb] at he
      split at he <;>
      · rw [List.mem_singleton.mp he] at hw
        injection hw with h1 h2 h3
        rw [← h1]
        exact hb
    | fail =>
      rw [procTick_fail st p hb] at he
      rw [List.mem_singleton.mp he] at hw
      injection hw with h1 h2 h3
      rw [← h1]
      exact hb
  · unfold procTick at he
    rw [if_neg hb] at he
    exact absurd he (List.not_mem_nil _)

theorem procsTick_write_bound (st : LoopSt) (env : TickEnv)
    (names : List (List Char)) :
    ∀ e ∈ procsTick st env names, ∀ t lvl m, e = LoopEv.write t lvl m →
      t ∈ st.bound := by
  intro e he t lvl m hw
  obtain ⟨q, _, he2⟩ := procsTick_mem.mp he
  exact procTick_write_bound st q _ e he2 t lvl m hw

theorem tick_rot (cfg : Config) (st : LoopSt) (env : TickEnv)
    (hch : dropLast2 (get_timestamp_str env.now) ≠ st.lastHour) :
    tick cfg st env =
      (LoopSt.mk (dropLast2 (get_timestamp_str env.now))
        (rotateProcs cfg (get_timestamp_str env.now)
          (rebind st globalName (get_log_filename cfg.log_path cfg.template
            (get_timestamp_str env.now) none)).1 cfg.procNames).1.bound,
       ((rebind st globalName (get_log_filename cfg.log_path cfg.template
            (get_timestamp_str env.now) none)).2 ++
         [LoopEv.write globalName Level.info Msg.rotMarker] ++
         (rotateProcs cfg (get_timestamp_str env.now)
           (rebind st globalName (get_log_filename cfg.log_path cfg.template
             (get_timestamp_str env.now) none)).1 cfg.procNames).2) ++
       globalTick (LoopSt.mk (dropLast2 (get_timestamp_str env.now))
          (rotateProcs cfg (get_timestamp_str env.now)
            (rebind st globalName (get_log_filename cfg.log_path cfg.template
              (get_timestamp_str env.now) none)).1 cfg.procNames).1.bound)
          env.sysSample ++
       procsTick (LoopSt.mk (dropLast2 (get_timestamp_str env.now))
          (rotateProcs cfg (get_timestamp_str env.now)
            (rebind st globalName (get_log_filename cfg.log_path cfg.template
              (get_timestamp_str env.now) none)).1 cfg.procNames).1.bound)
          env cfg.procNames) := by
  simp only [tick]
  rw [if_pos hch]

theorem tick_norot (cfg : Config) (st : LoopSt) (env : TickEnv)
    (hch : ¬ dropLast2 (get_timestamp_str env.now) ≠ st.lastHour) :
    tick cfg st env =
      (st, globalTick st env.sysSample ++ procsTick st env cfg.procNames) := by
  simp only [tick]
  rw [if_neg hch]
  rfl

theorem wellOpened_five (opened : List (List Char)) (a b c d e : List LoopEv)
    (ha : wellOpened opened a = true)
    (hb : wellOpened (openedAfter opened a) b = true)
    (hc : wellOpened (openedAfter (openedAfter opened a) b) c = true)
    (hd : wellOpened (openedAfter (openedAfter (openedAfter opened a) b) c)
      d = true)
    (he : wellOpened (openedAfter (openedAfter (openedAfter
      (openedAfter opened a) b) c) d) e = true) :
    wellOpened opened ((a ++ b ++ c) ++ d ++ e) = true := by
  simp [wellOpened_append, openedAfter_append, ha, hb, hc, hd, he]

theorem openedAfter_five (opened : List (List Char)) (a b c d e : List LoopEv)
    (x : List (List Char))
    (hx : x ⊆ openedAfter (openedAfter (openedAfter opened a) b) c) :
    x ⊆ openedAfter opened ((a ++ b ++ c) ++ d ++ e) := by
  have h1 : openedAfter opened ((a ++ b ++ c) ++ d ++ e) =
      openedAfter (openedAfter (openedAfter (openedAfter
        (openedAfter opened a) b) c) d) e := by
    simp [openedAfter_append]
  rw [h1]
  exact hx.trans ((subset_openedAfter _ _).trans (subset_openedAfter _ _))

theorem tick_wellOpened (cfg : Config) (st : LoopSt) (env : TickEnv)
    (opened : List (List Char)) (hsub : st.bound ⊆ opened) :
    wellOpened opened (tick cfg st env).2 = true ∧
    (tick cfg st env).1.bound ⊆ openedAfter opened (tick cfg st env).2 := by
  by_cases hch : dropLast2 (get_timestamp_str env.now) ≠ st.lastHour
  · rw [tick_rot cfg st env hch]
    obtain ⟨hg1, hg2⟩ := rebind_wellOpened st globalName
      (get_log_filename cfg.log_path cfg.template (get_timestamp_str env.now)
        none) opened hsub
    obtain ⟨hr1, hr2⟩ := rotateProcs_wellOpened cfg (get_timestamp_str env.now)
      cfg.procNames
      (rebind st globalName (get_log_filename cfg.log_path cfg.template
        (get_timestamp_str env.now) none)).1
      (openedAfter opened (rebind st globalName (get_log_filename cfg.log_path
        cfg.template (get_timestamp_str env.now) none)).2) hg2
    constructor
    · apply wellOpened_five
      · exact hg1
      · show (decide (globalName ∈ _) && true) = true
        rw [Bool.and_eq_true, decide_eq_true_eq]
        exact ⟨hg2 (rebind_self_bound st globalName _), rfl⟩
      · exact hr1
      · exact wellOpened_of_writes _ _ (fun e he t lvl m hw =>
          hr2 (globalTick_write_bound _ env.sysSample e he t lvl m hw))
      · exact wellOpened_of_writes _ _ (fun e he t lvl m hw =>
          subset_openedAfter _ _
            (hr2 (procsTick_write_bound _ env _ e he t lvl m hw)))
    · exact openedAfter_five _ _ _ _ _ _ _ hr2
  · rw [tick_norot cfg st env hch]
    constructor
    · rw [wellOpened_append]
      have h1 : wellOpened opened (globalTick st env.sysSample) = true :=
        wellOpened_of_writes _ _ (fun e he t lvl m hw =>
          hsub (globalTick_write_bound st _ e he t lvl m hw))
      have h2 : wellOpened (openedAfter opened (globalTick st env.sysSample))
          (procsTick st env cfg.procNames) = true :=
        wellOpened_of_writes _ _ (fun e he t lvl m hw =>
          subset_openedAfter _ _
            (hsub (procsTick_write_bound st env _ e he t lvl m hw)))
      rw [h1, h2]
      rfl
    · rw [openedAfter_append]
      exact hsub.trans
        ((subset_openedAfter _ _).trans (subset_openedAfter _ _))

theorem runLoop_wellOpened (cfg : Config) :
    ∀ (envs : List TickEnv) (st : LoopSt) (opened : List (List Char)),
      st.bound ⊆ opened →
      wellOpened opened (runLoop cfg st envs).2 = true := by
  intro envs
  induction envs with
  | nil => intro st opened hsub; rfl
  | cons env rest ih =>
    intro st opened hsub
    obtain ⟨h1, h2⟩ := tick_wellOpened cfg st env opened hsub
    show wellOpened opened ((tick cfg st env).2 ++
      (runLoop cfg (tick cfg st env).1 rest).2) = true
    rw [wellOpened_append, h1, ih _ _ h2]
    rfl

theorem get_timestamp_str_decomp (t : DateTime) :
    get_timestamp_str t = dropLast2 (get_timestamp_str t) ++ pad2 t.minute := by
  have h : get_timestamp_str t =
      (pad4 t.year ++ pad2 t.month ++ pad2 t.day ++ pad2 t.hour) ++
        pad2 t.minute := by
    simp [get_timestamp_str, List.append_assoc]
  rw [h, dropLast2]
  have hlen : ((pad4 t.year ++ pad2 t.month ++ pad2 t.day ++ pad2 t.hour) ++
      pad2 t.minute).length - 2 =
      (pad4 t.year ++ pad2 t.month ++ pad2 t.day ++ pad2 t.hour).length := by
    simp [pad2, pad4]
  rw [hlen, List.take_left]

theorem firstTick_rotates (u : DateTime) :
    dropLast2 (get_timestamp_str u) ≠ loopInit.lastHour := by
  intro h
  have hl : (dropLast2 (get_timestamp_str u)).length = 10 := by
    simp [dropLast2, get_timestamp_str, pad2, pad4]
  rw [h] at hl
  exact absurd hl (by decide)

theorem pyReplace_default_template (ts : List Char) :
    pyReplace ("%DATAHORA%".toList) ts ("PROCESSMONITOR_%DATAHORA%.log".toList) =
      "PROCESSMONITOR_".toList ++ ts ++ ".log".toList := rfl

theorem globalTick_ev_class (st : LoopSt) (s : Except Unit (ℚ × ℚ)) :
    ∀ e ∈ globalTick st s,
      (∃ t lvl m, e = LoopEv.write t lvl m) ∨ e = LoopEv.stderrLog := by
  intro e he
  by_cases hb : globalName ∈ st.bound
  · cases s with
    | ok v =>
      obtain ⟨cpu, mem⟩ := v
      rw [globalTick_ok st cpu mem hb] at he
      exact Or.inl ⟨_, _, _, List.mem_singleton.mp he⟩
    | error u =>
      rw [globalTick_err st u hb] at he
      exact Or.inl ⟨_, _, _, List.mem_singleton.mp he⟩
  · unfold globalTick at he
    rw [if_neg hb] at he
    exact absurd he (List.not_mem_nil _)

theorem procTick_ev_class (st : LoopSt) (p : List Char) (en : Enumeration) :
    ∀ e ∈ procTick st p en,
      (∃ t lvl m, e = LoopEv.write t lvl m) ∨ e = LoopEv.stderrLog := by
  intro e he
  by_cases hb : p ∈ st.bound
  · cases en with
    | ok procs =>
      rw [procTick_ok st p procs hb] at he
      split at he <;> exact Or.inl ⟨_, _, _, List.mem_singleton.mp he⟩
    | fail =>
      rw [procTick_fail st p hb] at he
      exact Or.inl ⟨_, _, _, List.mem_singleton.mp he⟩
  · unfold procTick at he
    rw [if_neg hb] at he
    exact absurd he (List.not_mem_nil _)

/-- Claim C8: whenever the hour bucket (`YYYYMMDDHH`, the timestamp with
its minute digits dropped) differs from the last observed bucket, the
tick first closes the old handle (when one is bound) and opens the new
file for every target — the global sink and each configured process —
with the `%DATAHORA%` placeholder replaced by the full `YYYYMMDDHHMM`
timestamp read at that moment (whose first ten characters are the new
bucket), updates the last observed bucket, and only then writes any
sample record: the rotation block contains every sink operation of the
tick and only rotation markers among its writes.  The first tick always
rotates (the initial bucket is empty), and over any run from the initial
state every write is preceded by an `openSink` for its target. -/
theorem claim_C8 (cfg : Config) (st : LoopSt) (env : TickEnv)
    (hch : dropLast2 (get_timestamp_str env.now) ≠ st.lastHour) :
    (tick cfg st env).1.lastHour = dropLast2 (get_timestamp_str env.now) ∧
    (∃ rot rest, (tick cfg st env).2 = rot ++ rest ∧
      (∀ e ∈ rot, (∃ t, e = LoopEv.closeSink t) ∨
        (∃ t pa, e = LoopEv.openSink t pa) ∨
        (∃ t, e = LoopEv.write t Level.info Msg.rotMarker)) ∧
      (∀ e ∈ rest, (∀ t, e ≠ LoopEv.closeSink t) ∧
        (∀ t pa, e ≠ LoopEv.openSink t pa)) ∧
      LoopEv.openSink globalName (get_log_filename cfg.log_path cfg.template
        (get_timestamp_str env.now) none) ∈ rot ∧
      (∀ p ∈ cfg.procNames, LoopEv.openSink p (get_log_filename cfg.log_path
        cfg.template (get_timestamp_str env.now) (some p)) ∈ rot) ∧
      (∀ t pa, LoopEv.openSink t pa ∈ rot →
        (t = globalName ∧ pa = get_log_filename cfg.log_path cfg.template
          (get_timestamp_str env.now) none) ∨
        (t ∈ cfg.procNames ∧ pa = get_log_filename cfg.log_path cfg.template
          (get_timestamp_str env.now) (some t))) ∧
      (∀ t, t ∈ st.bound → (t = globalName ∨ t ∈ cfg.procNames) →
        ∃ pa, List.Sublist [LoopEv.closeSink t, LoopEv.openSink t pa] rot)) ∧
    get_timestamp_str env.now =
      dropLast2 (get_timestamp_str env.now) ++ pad2 env.now.minute ∧
    (∀ u : DateTime, dropLast2 (get_timestamp_str u) ≠ loopInit.lastHour) ∧
    (∀ ts, pyReplace ("%DATAHORA%".toList) ts
        ("PROCESSMONITOR_%DATAHORA%.log".toList) =
      "PROCESSMONITOR_".toList ++ ts ++ ".log".toList) ∧
    (∀ envs, wellOpened [] (runLoop cfg loopInit envs).2 = true) := by
  rw [tick_rot cfg st env hch]
  refine ⟨rfl, ?_, get_timestamp_str_decomp env.now, firstTick_rotates,
    pyReplace_default_template,
    fun envs => runLoop_wellOpened cfg envs loopInit [] (List.nil_subset _)⟩
  refine ⟨_, _, List.append_assoc _ _ _, ?_, ?_, ?_, ?_, ?_, ?_⟩
  · intro e he
    rcases List.mem_append.mp he with h1|h2
    · rcases List.mem_append.mp h1 with h3|h4
      · rcases rebind_ev_class _ _ _ e h3 with h|h
        · exact Or.inl ⟨_, h⟩
        · exact Or.inr (Or.inl ⟨_, _, h⟩)
      · rw [List.mem_singleton.mp h4]
        exact Or.inr (Or.inr ⟨_, rfl⟩)
    · obtain ⟨p, hp, hc⟩ := rotateProcs_ev_class cfg _ cfg.procNames _ e h2
      rcases hc with h|h|h
      · exact Or.inl ⟨_, h⟩
      · exact Or.inr (Or.inl ⟨_, _, h⟩)
      · exact Or.inr (Or.inr ⟨_, h⟩)
  · intro e he
    have hcls : (∃ t lvl m, e = LoopEv.write t lvl m) ∨ e = LoopEv.stderrLog := by
      rcases List.mem_append.mp he with h1|h2
      · exact globalTick_ev_class _ env.sysSample e h1
      · obtain ⟨q, _, h3⟩ := procsTick_mem.mp h2
        exact procTick_ev_class _ q _ e h3
    rcases hcls with ⟨t', lvl, m, rfl⟩|rfl
    · exact ⟨fun t hcon => LoopEv.noConfusion hcon,
        fun t pa hcon => LoopEv.noConfusion hcon⟩
    · exact ⟨fun t hcon => LoopEv.noConfusion hcon,
        fun t pa hcon => LoopEv.noConfusion hcon⟩
  · exact List.mem_append.mpr (Or.inl (List.mem_append.mpr
      (Or.inl (rebind_open_mem st globalName _))))
  · intro p hp
    exact List.mem_append.mpr (Or.inr
      (rotateProcs_open_mem cfg _ cfg.procNames _ p hp))
  · intro t pa ho
    rcases List.mem_append.mp ho with h1|h2
    · rcases List.mem_append.mp h1 with h3|h4
      · rcases rebind_ev_class _ _ _ _ h3 with h|h
        · exact absurd h (fun hcon => LoopEv.noConfusion hcon)
        · injection h with ha hb
          exact Or.inl ⟨ha, hb⟩
      · exact absurd (List.mem_singleton.mp h4)
          (fun hcon => LoopEv.noConfusion hcon)
    · obtain ⟨p, hp, hc⟩ := rotateProcs_ev_class cfg _ cfg.procNames _ _ h2
      rcases hc with h|h|h
      · exact absurd h (fun hcon => LoopEv.noConfusion hcon)
      · injection h with ha hb
        subst ha
        exact Or.inr ⟨hp, hb⟩
      · exact absurd h (fun hcon => LoopEv.noConfusion hcon)
  · intro t hb ht
    rcases ht with rfl|hm
    · refine ⟨get_log_filename cfg.log_path cfg.template
        (get_timestamp_str env.now) none, ?_⟩
      have h := rebind_close_open st globalName (get_log_filename cfg.log_path
        cfg.template (get_timestamp_str env.now) none) hb
      rw [← h]
      exact (List.sublist_append_left _ _).trans (List.sublist_append_left _ _)
    · refine ⟨get_log_filename cfg.log_path cfg.template
        (get_timestamp_str env.now) (some t), ?_⟩
      have hb2 : t ∈ (rebind st globalName (get_log_filename cfg.log_path
          cfg.template (get_timestamp_str env.now) none)).1.bound :=
        rebind_bound_mono st globalName _ hb
      exact (rotateProcs_close_sub cfg _ cfg.procNames _ t hm hb2).trans
        (List.sublist_append_right _ _)

def cfgC8 : Config :=
  ⟨"/tmp".toList, "PROCESSMONITOR_%DATAHORA%.log".toList,
   ["notepad".toList], 5, RankBy.mem⟩

def stC8 : LoopSt := ⟨[], []⟩

def envC8 : TickEnv :=
  ⟨⟨2025, 5, 4, 10, 3, 0⟩, Except.error (), fun _ => Enumeration.fail,
   CoreQuery.fail, Enumeration.fail⟩

theorem claim_C8_witness :
    dropLast2 (get_timestamp_str envC8.now) ≠ stC8.lastHour ∧
    (tick cfgC8 stC8 envC8).1.lastHour =
      dropLast2 (get_timestamp_str envC8.now) :=
  ⟨by decide, (claim_C8 cfgC8 stC8 envC8 (by decide)).1⟩

/-! ## Claim C5: the topten record -/

/-- Modelled from the spec: the "topten" sink target name. -/
def toptenName : List Char := "topten".toList

/-- Modelled from the spec: the fixed delimiter (`" $:"`) joining the
core summary line and the ranked entries into one multi-line message. -/
def dollarSep : List Char := " $:".toList

/-- Modelled from the spec: step 4 of the tick — sample the core summary
(`get_core_info`, embedded from procmon_utils.py) and the top-N
processes (`get_top_processes`, embedded from procmon_utils.py), compose
the message by joining the core summary line and the rendered ranked
entries with the fixed delimiter, and write exactly one record to the
"topten" sink: INFO on success; on `CoreInfoError` only the core-info
failure is logged and the ranked list is skipped; on a ranked-list
collection failure after core info succeeded, the error is logged.  The
rendering of the core line and of one ranked entry (fixed-width padding
for PID, CPU%, mem%, name) are parameters: the spec fixes their fields
but not their exact widths. -/
def toptenStep (coreLine : CoreInfo → List Char)
    (fmtTopEntry : TopEntry → List Char) (cfg : Config) (env : TickEnv) :
    List LoopEv :=
  match get_core_info env.coreQ with
  | Except.error _ => [LoopEv.write toptenName Level.error Msg.errCore]
  | Except.ok c =>
    match get_top_processes cfg.topN cfg.rankBy env.topEnum with
    | Except.error _ => [LoopEv.write toptenName Level.error Msg.errTopten]
    | Except.ok entries =>
      [LoopEv.write toptenName Level.info
        (Msg.topten (joinSep dollarSep
          (coreLine c :: entries.map fmtTopEntry)))]

/-- Modelled from the spec: the tick with step 4 appended — the topten
step runs after the rotation, global and per-process samples. -/
def tickFull (coreLine : CoreInfo → List Char)
    (fmtTopEntry : TopEntry → List Char) (cfg : Config) (st : LoopSt)
    (env : TickEnv) : LoopSt × List LoopEv :=
  let r := tick cfg st env
  (r.1, r.2 ++ toptenStep coreLine fmtTopEntry cfg env)

/-- Claim C5: on every tick, after the global and per-process sample
events, the loop samples the core summary and the top-N processes and
writes exactly one record to the "topten" sink — always exactly one
write event to that sink, and when both samples succeed it is a single
INFO record whose message is the core summary line joined with the
ranked entries by the fixed `" $:"` delimiter.  (The loop-side topten
step is modelled from the spec; the two samplers are embedded from
procmon_utils.py.) -/
theorem claim_C5 (coreLine : CoreInfo → List Char)
    (fmtTopEntry : TopEntry → List Char) (cfg : Config) (st : LoopSt)
    (env : TickEnv) :
    (∃ lvl m, toptenStep coreLine fmtTopEntry cfg env =
      [LoopEv.write toptenName lvl m]) ∧
    (∀ c l, get_core_info env.coreQ = Except.ok c →
      get_top_processes cfg.topN cfg.rankBy env.topEnum = Except.ok l →
      (tickFull coreLine fmtTopEntry cfg st env).2 =
        (tick cfg st env).2 ++
          [LoopEv.write toptenName Level.info
            (Msg.topten (joinSep dollarSep
              (coreLine c :: l.map fmtTopEntry)))]) ∧
    (tickFull coreLine fmtTopEntry cfg st env).1 = (tick cfg st env).1 := by
  refine ⟨?_, ?_, rfl⟩
  · cases hc : get_core_info env.coreQ with
    | error e =>
      refine ⟨Level.error, Msg.errCore, ?_⟩
      simp only [toptenStep, hc]
    | ok c =>
      cases ht : get_top_processes cfg.topN cfg.rankBy env.topEnum with
      | error e =>
        refine ⟨Level.error, Msg.errTopten, ?_⟩
        simp only [toptenStep, hc, ht]
      | ok l =>
        refine ⟨Level.info, Msg.topten (joinSep dollarSep
          (coreLine c :: l.map fmtTopEntry)), ?_⟩
        simp only [toptenStep, hc, ht]
  · intro c l hc ht
    simp only [tickFull, toptenStep, hc, ht]

def coreLineC5 : CoreInfo → List Char := fun c => natChars c.physical

def fmtC5 : TopEntry → List Char := fun p => p.name

def cfgC5 : Config := ⟨"/tmp".toList, "T".toList, [], 2, RankBy.cpu⟩

def stC5 : LoopSt := ⟨"2025050410".toList, []⟩

def envC5 : TickEnv :=
  ⟨⟨2025, 5, 4, 10, 3, 0⟩, Except.error (), fun _ => Enumeration.fail,
   CoreQuery.ok (some 4) (some 8) (some 12),
   Enumeration.ok [ProcEntry.ok ⟨1, some "a".toList, some 5, some 3⟩]⟩

theorem claim_C5_witness :
    get_core_info envC5.coreQ = Except.ok ⟨4, 8, 12⟩ ∧
    get_top_processes cfgC5.topN cfgC5.rankBy envC5.topEnum =
      Except.ok [⟨1, "a".toList, 5, 3⟩] ∧
    (tickFull coreLineC5 fmtC5 cfgC5 stC5 envC5).2 =
      (tick cfgC5 stC5 envC5).2 ++
        [LoopEv.write toptenName Level.info
          (Msg.topten (joinSep dollarSep
            (coreLineC5 ⟨4, 8, 12⟩ ::
              ([⟨1, "a".toList, 5, 3⟩] : List TopEntry).map fmtC5)))] :=
  ⟨rfl, rfl,
   (claim_C5 coreLineC5 fmtC5 cfgC5 stC5 envC5).2.1 ⟨4, 8, 12⟩
     [⟨1, "a".toList, 5, 3⟩] rfl rfl⟩
